import Mathlib

/-!
# Verification of the CAG research-system core

A shallow embedding, in Lean 4, of the investigation-orchestration core of
the CAG (Causal-Adversarial Graph) research system:

* the causal-graph data model (`CausalNode`, `CausalEdge`, `CausalGraph`)
  and its operations from `src/domain/causal_models.py`;
* the planner's guarded edge insertion from
  `src/agents/nodes/causal_planner.py`;
* the edge-selection policy from `src/agents/nodes/edge_selector.py`;
* the judge from `src/agents/nodes/judge.py`;
* the auditor and routing from `src/agents/nodes/auditor.py` and
  `src/graph/cag_graph.py`;
* the counter-map reducer from `src/agents/state.py`;
* the resilient fallback model-invocation layer from
  `src/adapters/fallback_llm_adapter.py`.

Python dicts are embedded as association lists in insertion order (keys
unique by construction in the source); Python's unbounded integers as
`Int` (or `Nat` where the source value is a length); floats that are only
ever assigned and compared (confidence scores, times, cooldowns) as `Rat`.
Functions that mutate objects in place are embedded as functions returning
the updated value.
-/

/-- Node kinds, from `CausalNode.node_type`
(`Literal["VARIABLE", "OUTCOME", "CONFOUNDER", "MEDIATOR"]`). -/
inductive NodeType
  | VARIABLE
  | OUTCOME
  | CONFOUNDER
  | MEDIATOR
deriving DecidableEq, Repr

/-- Edge lifecycle states, from `CausalEdge.status`
(`Literal["PROPOSED", "INVESTIGATING", "VERIFIED", "FALSIFIED", "UNCLEAR"]`). -/
inductive EdgeStatus
  | PROPOSED
  | INVESTIGATING
  | VERIFIED
  | FALSIFIED
  | UNCLEAR
deriving DecidableEq, Repr

/-- A source citation, from `domain/models.py` (`Citation`).  The
`access_date` timestamp is irrelevant to every claim and omitted. -/
structure Citation where
  url : String
  title : String
  snippet : String
  credibility_score : Rat
  domain : String
deriving DecidableEq, Repr

/-- A piece of evidence, from `domain/models.py` (`Evidence`).  The UUID
`id` is embedded as an opaque `Nat`. -/
structure Evidence where
  id : Nat
  content : String
  source : Citation
  supports_hypothesis : Bool
  relevance_score : Rat
  extraction_method : String
deriving DecidableEq, Repr

/-- A causal node, from `domain/causal_models.py` (`CausalNode`). -/
structure CausalNode where
  id : String
  label : String
  description : String
  node_type : NodeType
deriving DecidableEq, Repr

/-- A causal edge, from `domain/causal_models.py` (`CausalEdge`).  The UUID
`id` is embedded as an opaque `Nat`. -/
structure CausalEdge where
  id : Nat
  source_id : String
  target_id : String
  hypothesis : String
  mechanism : String
  confidence : Rat
  status : EdgeStatus
  supporting_evidence : List Evidence
  contradicting_evidence : List Evidence
  investigation_count : Int
  judge_reasoning : String
deriving DecidableEq, Repr

/-- The causal graph, from `domain/causal_models.py` (`CausalGraph`).  The
UUID `id` of the graph itself is irrelevant to every claim and omitted. -/
structure CausalGraph where
  nodes : List CausalNode
  edges : List CausalEdge
  root_query : String
deriving DecidableEq, Repr

/-- `CausalGraph.get_node`: first node with the given id
(`next((n for n in self.nodes if n.id == node_id), None)`). -/
def CausalGraph.get_node (g : CausalGraph) (node_id : String) : Option CausalNode :=
  g.nodes.find? (fun n => n.id == node_id)

/-- `CausalGraph.get_edge`: first edge with the given ordered
`(source_id, target_id)` pair. -/
def CausalGraph.get_edge (g : CausalGraph) (source_id target_id : String) :
    Option CausalEdge :=
  g.edges.find? (fun e => e.source_id == source_id && e.target_id == target_id)

/-- `CausalGraph.add_node`: append the node if its id is unknown; the `Bool`
is the Python return value (whether the node was added). -/
def CausalGraph.add_node (g : CausalGraph) (node : CausalNode) : CausalGraph × Bool :=
  if (g.get_node node.id).isNone then
    ({ g with nodes := g.nodes ++ [node] }, true)
  else
    (g, false)

/-- `CausalGraph.add_edge`: append the edge if no edge with the same
`(source_id, target_id)` pair exists; the `Bool` is the Python return
value.  Note: the source performs no endpoint-existence check and no DAG
check here. -/
def CausalGraph.add_edge (g : CausalGraph) (edge : CausalEdge) : CausalGraph × Bool :=
  if (g.get_edge edge.source_id edge.target_id).isNone then
    ({ g with edges := g.edges ++ [edge] }, true)
  else
    (g, false)

/-- Helper for `CausalGraph.update_edge`: replace the first edge whose
`(source_id, target_id)` pair matches `ue`'s; `none` if no match. -/
def replaceFirstEdge (ue : CausalEdge) : List CausalEdge → Option (List CausalEdge)
  | [] => none
  | e :: es =>
      if e.source_id == ue.source_id && e.target_id == ue.target_id then
        some (ue :: es)
      else
        (replaceFirstEdge ue es).map (fun l => e :: l)

/-- `CausalGraph.update_edge`: replace the first edge with the same
`(source_id, target_id)` pair in place; the `Bool` is the Python return
value (whether an edge was updated). -/
def CausalGraph.update_edge (g : CausalGraph) (ue : CausalEdge) : CausalGraph × Bool :=
  match replaceFirstEdge ue g.edges with
  | some es => ({ g with edges := es }, true)
  | none => (g, false)

/-- `CausalGraph.get_edges_by_status`. -/
def CausalGraph.get_edges_by_status (g : CausalGraph) (status : EdgeStatus) :
    List CausalEdge :=
  g.edges.filter (fun e => e.status == status)

/-! ## Kahn's algorithm (`CausalGraph.is_dag`)

The Python code builds two dicts keyed by node id — `in_degree` and `adj` —
considering only edges whose endpoints are both node ids, seeds a queue
with the zero-in-degree ids (in dict insertion order), then repeatedly pops
the queue front, counting visits and decrementing the in-degrees of the
popped node's neighbours, enqueuing those that reach zero.  The graph is a
DAG iff the visit count equals `len(self.nodes)`.

`in_degree` is embedded as an association list in insertion order, `adj` as
a total function `String → List String` (Python's `adj.get(node, [])`
defaults to `[]` for unknown keys, and entries are only ever appended for
keys that are node ids, so the total-function embedding agrees with the
dict on every lookup the algorithm performs). -/

/-- The keys of a dict comprehension over a possibly-duplicated id list:
first occurrences, in order. -/
def dedupFirstAux (seen : List String) : List String → List String
  | [] => []
  | x :: xs =>
      if x ∈ seen then dedupFirstAux seen xs
      else x :: dedupFirstAux (x :: seen) xs

/-- First occurrences of a list of ids, in order (Python dict-key order). -/
def dedupFirst (l : List String) : List String :=
  dedupFirstAux [] l

/-- `in_degree[t] += 1` on the association-list embedding of the dict:
increment the value at key `t`. -/
def incrKey (t : String) (m : List (String × Int)) : List (String × Int) :=
  m.map (fun p => if p.1 == t then (p.1, p.2 + 1) else p)

/-- One step of the edge loop in `is_dag`: if both endpoints are node ids,
append the target to the source's adjacency list and increment the
target's in-degree. -/
def buildStep (ids : List String) (acc : (String → List String) × List (String × Int))
    (e : CausalEdge) : (String → List String) × List (String × Int) :=
  if e.source_id ∈ ids ∧ e.target_id ∈ ids then
    (fun s => if s = e.source_id then acc.1 s ++ [e.target_id] else acc.1 s,
     incrKey e.target_id acc.2)
  else
    acc

/-- The adjacency map and in-degree map of `is_dag`, built by folding
`buildStep` over the edge list, starting from all-empty adjacency and
all-zero in-degrees. -/
def buildMaps (ids : List String) (edges : List CausalEdge) :
    (String → List String) × List (String × Int) :=
  edges.foldl (buildStep ids) (fun _ => [], ids.map (fun i => (i, 0)))

/-- Total `toNat`-sum of an in-degree map, the termination measure of the
Kahn loop (in-degrees never go negative on reachable states, so this is
just their sum). -/
def sumToNat (m : List (String × Int)) : Nat :=
  (m.map (fun p => p.2.toNat)).sum

/-- `in_degree[n] -= 1` on the association-list embedding of the dict:
decrement the value at key `n`. -/
def decKey (n : String) (m : List (String × Int)) : List (String × Int) :=
  m.map (fun p => if p.1 == n then (p.1, p.2 - 1) else p)

/-- The inner `for neighbor in adj.get(node, [])` loop of `is_dag`:
decrement each neighbour's in-degree, enqueuing neighbours that reach
zero.  (Every neighbour is an `in_degree` key on reachable states; a
missing key — which would raise `KeyError` in Python — is skipped.) -/
def relax (indeg : List (String × Int)) (queue : List String) :
    List String → List (String × Int) × List String
  | [] => (indeg, queue)
  | n :: ns =>
      match (indeg.find? (fun p => p.1 == n)).map (fun p => p.2) with
      | none => relax indeg queue ns
      | some d =>
          relax (decKey n indeg) (if d - 1 == 0 then queue ++ [n] else queue) ns

theorem decKey_cons (n : String) (p : String × Int) (t : List (String × Int)) :
    decKey n (p :: t) = (if p.1 == n then (p.1, p.2 - 1) else p) :: decKey n t := by
  simp [decKey]

theorem sumToNat_dec_le (indeg : List (String × Int)) (n : String) :
    sumToNat (decKey n indeg) ≤ sumToNat indeg := by
  induction indeg with
  | nil => simp [sumToNat, decKey]
  | cons p t ih =>
      rw [decKey_cons]
      by_cases h : (p.1 == n) = true
      · simp only [sumToNat, List.map_cons, List.sum_cons, h, if_true] at *
        have : (p.2 - 1).toNat ≤ p.2.toNat := by omega
        omega
      · simp only [sumToNat, List.map_cons, List.sum_cons, h, Bool.false_eq_true,
          if_false] at *
        omega

theorem sumToNat_dec_strict (indeg : List (String × Int)) (n : String) (pr : String × Int)
    (hfind : indeg.find? (fun p => p.1 == n) = some pr) (hval : pr.2 - 1 = 0) :
    sumToNat (decKey n indeg) + 1 ≤ sumToNat indeg := by
  induction indeg with
  | nil => simp at hfind
  | cons p t ih =>
      rw [decKey_cons]
      by_cases h : (p.1 == n) = true
      · simp only [List.find?_cons, h, if_true] at hfind
        injection hfind with hpr
        have hp2 : p.2 - 1 = 0 := by rw [hpr]; omega
        simp only [sumToNat, List.map_cons, List.sum_cons, h, if_true]
        have h3 := sumToNat_dec_le t n
        simp only [sumToNat] at h3
        omega
      · simp only [List.find?_cons, h, Bool.false_eq_true, if_false] at hfind
        have := ih hfind
        simp only [sumToNat, List.map_cons, List.sum_cons, h, Bool.false_eq_true,
          if_false] at *
        omega

theorem relax_measure (ns : List String) (indeg : List (String × Int))
    (queue : List String) :
    (relax indeg queue ns).2.length + sumToNat (relax indeg queue ns).1 ≤
      queue.length + sumToNat indeg := by
  induction ns generalizing indeg queue with
  | nil => simp [relax]
  | cons n ns ih =>
      rw [relax]
      cases hfind : (indeg.find? (fun p => p.1 == n)).map (fun p => p.2) with
      | none => exact ih indeg queue
      | some d =>
          refine le_trans (ih _ _) ?_
          rcases Option.map_eq_some'.mp hfind with ⟨pr, hpr, hd⟩
          by_cases hz : (d - 1 == 0) = true
          · have hz' : d - 1 = 0 := by simpa using hz
            simp only [hz, if_true, List.length_append, List.length_cons,
              List.length_nil]
            have := sumToNat_dec_strict indeg n pr hpr (by omega)
            omega
          · simp only [hz, Bool.false_eq_true, if_false]
            have := sumToNat_dec_le indeg n
            omega

/-- The `while queue:` loop of `is_dag`: pop the queue front, count the
visit, relax the popped node's out-neighbours. -/
def kahnLoop (adj : String → List String) :
    List (String × Int) → List String → Nat → Nat
  | _, [], visited => visited
  | indeg, node :: rest, visited =>
      let p := relax indeg rest (adj node)
      kahnLoop adj p.1 p.2 (visited + 1)
termination_by indeg queue _ => queue.length + sumToNat indeg
decreasing_by
  have h := relax_measure (adj node) indeg rest
  simp only [List.length_cons]
  omega

theorem kahnLoop_nil (adj : String → List String) (indeg : List (String × Int))
    (visited : Nat) : kahnLoop adj indeg [] visited = visited := by
  rw [kahnLoop.eq_def]

theorem kahnLoop_cons (adj : String → List String) (indeg : List (String × Int))
    (node : String) (rest : List String) (visited : Nat) :
    kahnLoop adj indeg (node :: rest) visited =
      kahnLoop adj (relax indeg rest (adj node)).1 (relax indeg rest (adj node)).2
        (visited + 1) := by
  rw [kahnLoop.eq_def]

/-- `CausalGraph.is_dag`: Kahn's algorithm; a DAG iff the number of visited
nodes equals `len(self.nodes)`.  An empty node list is a DAG outright. -/
def CausalGraph.is_dag (g : CausalGraph) : Bool :=
  if g.nodes = [] then true
  else
    let ids := dedupFirst (g.nodes.map (fun n => n.id))
    let maps := buildMaps ids g.edges
    let queue := (maps.2.filter (fun p => p.2 == 0)).map (fun p => p.1)
    kahnLoop maps.1 maps.2 queue 0 == g.nodes.length

/-- Sanity check: a two-node chain passes the Kahn check. -/
theorem is_dag_chain_example :
    CausalGraph.is_dag
      ⟨[⟨"a", "A", "", NodeType.VARIABLE⟩, ⟨"b", "B", "", NodeType.OUTCOME⟩],
       [⟨0, "a", "b", "h", "", 0, EdgeStatus.PROPOSED, [], [], 0, ""⟩], "q"⟩ = true := by
  simp [CausalGraph.is_dag, dedupFirst, dedupFirstAux, buildMaps, buildStep,
    incrKey, decKey, List.foldl, kahnLoop.eq_def, relax, List.filter]

/-- Sanity check: a two-node cycle fails the Kahn check. -/
theorem is_dag_cycle_example :
    CausalGraph.is_dag
      ⟨[⟨"a", "A", "", NodeType.VARIABLE⟩, ⟨"b", "B", "", NodeType.OUTCOME⟩],
       [⟨0, "a", "b", "h", "", 0, EdgeStatus.PROPOSED, [], [], 0, ""⟩,
        ⟨1, "b", "a", "h", "", 0, EdgeStatus.PROPOSED, [], [], 0, ""⟩], "q"⟩ = false := by
  simp [CausalGraph.is_dag, dedupFirst, dedupFirstAux, buildMaps, buildStep,
    incrKey, decKey, List.foldl, kahnLoop.eq_def, relax, List.filter]

/-! ## Guarded edge insertion (the planner's DAG enforcement)

`CausalPlannerNode._create_initial_graph` / `_enhance_graph` skip edges
with unknown endpoint ids, then `add_edge` the rest, and when the tentative
insertion breaks `is_dag` they `pop()` the edge again
(`src/agents/nodes/causal_planner.py`, lines 139–153 and 238–250). -/

/-- The planner's guarded insertion: skip unknown endpoints, tentatively
insert, and pop the edge again if the graph stops being a DAG.  The `Bool`
reports whether the edge was kept. -/
def addEdgeChecked (g : CausalGraph) (e : CausalEdge) : CausalGraph × Bool :=
  if (g.get_node e.source_id).isNone ∨ (g.get_node e.target_id).isNone then
    (g, false)
  else
    match g.add_edge e with
    | (g', true) =>
        if g'.is_dag then (g', true)
        else ({ g' with edges := g'.edges.dropLast }, false)
    | (g', false) => (g', false)

/-- A mutation of the graph through the mutator API: `add_node`, or the
planner's guarded edge insertion. -/
inductive GraphOp
  | addNode (n : CausalNode)
  | addEdge (e : CausalEdge)

/-- Apply one `GraphOp`. -/
def applyOp (g : CausalGraph) : GraphOp → CausalGraph
  | GraphOp.addNode n => (g.add_node n).1
  | GraphOp.addEdge e => (addEdgeChecked g e).1

/-- The empty graph a session starts from
(`CausalGraph(root_query=...)`). -/
def emptySessionGraph (q : String) : CausalGraph :=
  ⟨[], [], q⟩

/-- Apply a sequence of graph operations from the empty graph. -/
def applyOps (q : String) (ops : List GraphOp) : CausalGraph :=
  ops.foldl applyOp (emptySessionGraph q)

/-! ### Association-list helpers for the Kahn-loop lemmas -/

theorem find?_append_singleton_ne (m : List (String × Int)) (x : String) (c : Int)
    (n : String) (hxn : n ≠ x) :
    (m ++ [(x, c)]).find? (fun p => p.1 == n) = m.find? (fun p => p.1 == n) := by
  induction m with
  | nil =>
      have hx : (x == n) = false := by
        simp only [beq_eq_false_iff_ne, ne_eq]
        intro h
        exact hxn h.symm
      simp [List.find?, hx]
  | cons p t ih =>
      by_cases h : (p.1 == n) = true
      · simp [List.find?_cons, h]
      · simp only [List.cons_append, List.find?_cons, h, Bool.false_eq_true, if_false]
        exact ih

theorem decKey_append_singleton_ne (m : List (String × Int)) (x : String) (c : Int)
    (n : String) (hxn : n ≠ x) :
    decKey n (m ++ [(x, c)]) = decKey n m ++ [(x, c)] := by
  simp only [decKey, List.map_append, List.map_cons, List.map_nil]
  have : (x == n) = false := by
    simp only [beq_eq_false_iff_ne, ne_eq]
    intro h
    exact hxn h.symm
  simp [this]

theorem relax_append_iso (x : String) (c : Int) (ns : List String) (hns : x ∉ ns) :
    ∀ (indeg : List (String × Int)) (queue : List String),
      relax (indeg ++ [(x, c)]) queue ns =
        ((relax indeg queue ns).1 ++ [(x, c)], (relax indeg queue ns).2) := by
  induction ns with
  | nil => intro indeg queue; simp [relax]
  | cons n ns ih =>
      intro indeg queue
      have hxn : n ≠ x := fun h => hns (h ▸ List.mem_cons_self n ns)
      have hns' : x ∉ ns := fun h => hns (List.mem_cons_of_mem n h)
      rw [relax, relax, find?_append_singleton_ne indeg x c n hxn]
      cases hfind : (indeg.find? (fun p => p.1 == n)).map (fun p => p.2) with
      | none => exact ih hns' indeg queue
      | some d =>
          simp only
          rw [decKey_append_singleton_ne indeg x c n hxn]
          exact ih hns' (decKey n indeg) _

theorem relax_queue_decomp (ns : List String) :
    ∀ (indeg : List (String × Int)) (queue : List String),
      (relax indeg queue ns).1 = (relax indeg [] ns).1 ∧
        (relax indeg queue ns).2 = queue ++ (relax indeg [] ns).2 := by
  induction ns with
  | nil => intro indeg queue; simp [relax]
  | cons n ns ih =>
      intro indeg queue
      rw [relax, relax]
      cases hfind : (indeg.find? (fun p => p.1 == n)).map (fun p => p.2) with
      | none => exact ih indeg queue
      | some d =>
          simp only
          by_cases hz : (d - 1 == 0) = true
      
          · simp only [hz, if_true]
            obtain ⟨h1, h2⟩ := ih (decKey n indeg) (queue ++ [n])
            obtain ⟨h1', h2'⟩ := ih (decKey n indeg) ([] ++ [n])
            refine ⟨by rw [h1, h1'], ?_⟩
            rw [h2, h2']
            simp
          · simp only [hz, Bool.false_eq_true, if_false]
            exact ih (decKey n indeg) queue

theorem relax_mem_queue (ns : List String) :
    ∀ (indeg : List (String × Int)) (queue : List String) (y : String),
      y ∈ (relax indeg queue ns).2 → y ∈ queue ∨ y ∈ ns := by
  induction ns with
  | nil => intro indeg queue y hy; simp [relax] at hy; exact Or.inl hy
  | cons n ns ih =>
      intro indeg queue y hy
      rw [relax] at hy
      cases hfind : (indeg.find? (fun p => p.1 == n)).map (fun p => p.2) with
      | none =>
          rw [hfind] at hy
          rcases ih indeg queue y hy with h | h
          · exact Or.inl h
          · exact Or.inr (List.mem_cons_of_mem n h)
      | some d =>
          rw [hfind] at hy
          simp only at hy
          by_cases hz : (d - 1 == 0) = true
          · rw [if_pos hz] at hy
            rcases ih (decKey n indeg) (queue ++ [n]) y hy with h | h
            · rcases List.mem_append.mp h with h' | h'
              · exact Or.inl h'
              · simp at h'
                exact Or.inr (h' ▸ List.mem_cons_self n ns)
            · exact Or.inr (List.mem_cons_of_mem n h)
          · rw [if_neg hz] at hy
            rcases ih (decKey n indeg) queue y hy with h | h
            · exact Or.inl h
            · exact Or.inr (List.mem_cons_of_mem n h)

theorem kahnLoop_acc (adj : String → List String) :
    ∀ (N : Nat) (indeg : List (String × Int)) (queue : List String) (v : Nat),
      queue.length + sumToNat indeg ≤ N →
      kahnLoop adj indeg queue v = kahnLoop adj indeg queue 0 + v := by
  intro N
  induction N using Nat.strong_induction_on with
  | _ N ih =>
      intro indeg queue v hN
      cases queue with
      | nil => simp [kahnLoop_nil]
      | cons node rest =>
          have hm := relax_measure (adj node) indeg rest
          have hrec : (relax indeg rest (adj node)).2.length +
              sumToNat (relax indeg rest (adj node)).1 ≤ N - 1 := by
            simp only [List.length_cons] at hN
            omega
          have hNpos : 1 ≤ N := by
            simp only [List.length_cons] at hN
            omega
          rw [kahnLoop_cons, kahnLoop_cons]
          rw [ih (N - 1) (by omega) _ _ (v + 1) hrec,
            ih (N - 1) (by omega) _ _ (0 + 1) hrec]
          omega

theorem kahnLoop_untouched (adj : String → List String) (x : String) (c : Int)
    (hadj : ∀ s, x ∉ adj s) :
    ∀ (N : Nat) (indeg : List (String × Int)) (queue : List String) (v : Nat),
      queue.length + sumToNat indeg ≤ N → x ∉ queue →
      kahnLoop adj (indeg ++ [(x, c)]) queue v = kahnLoop adj indeg queue v := by
  intro N
  induction N using Nat.strong_induction_on with
  | _ N ih =>
      intro indeg queue v hN hq
      cases queue with
      | nil => simp [kahnLoop_nil]
      | cons node rest =>
          have hnode : node ≠ x := fun h => hq (h ▸ List.mem_cons_self node rest)
          have hrest : x ∉ rest := fun h => hq (List.mem_cons_of_mem node h)
          have hiso := relax_append_iso x c (adj node) (hadj node) indeg rest
          rw [kahnLoop_cons, kahnLoop_cons, hiso]
          dsimp only
          have hm := relax_measure (adj node) indeg rest
          have hq' : x ∉ (relax indeg rest (adj node)).2 := by
            intro hmem
            rcases relax_mem_queue (adj node) indeg rest x hmem with h | h
            · exact hrest h
            · exact hadj node h
          refine ih (N - 1) ?_ _ _ (v + 1) ?_ hq'
          · simp only [List.length_cons] at hN
            omega
          · simp only [List.length_cons] at hN
            omega

theorem kahnLoop_isolated (adj : String → List String) (x : String)
    (hadj : ∀ s, x ∉ adj s) (hx : adj x = []) :
    ∀ (N : Nat) (q₁ q₂ : List String) (indeg : List (String × Int)) (v : Nat),
      (q₁ ++ q₂).length + sumToNat indeg ≤ N → x ∉ q₁ → x ∉ q₂ →
      kahnLoop adj (indeg ++ [(x, 0)]) (q₁ ++ x :: q₂) v =
        kahnLoop adj indeg (q₁ ++ q₂) v + 1 := by
  intro N
  induction N using Nat.strong_induction_on with
  | _ N ih =>
      intro q₁ q₂ indeg v hN h1 h2
      cases q₁ with
      | nil =>
          rw [List.nil_append, kahnLoop_cons, hx, relax]
          rw [kahnLoop_untouched adj x 0 hadj ((q₂.length + sumToNat indeg))
            indeg q₂ (v + 1) le_rfl h2]
          rw [List.nil_append]
          rw [kahnLoop_acc adj (q₂.length + sumToNat indeg) indeg q₂ (v + 1) le_rfl,
            kahnLoop_acc adj (q₂.length + sumToNat indeg) indeg q₂ v le_rfl]
          omega
      | cons h t =>
          have hhx : h ≠ x := fun hh => h1 (hh ▸ List.mem_cons_self h t)
          have ht : x ∉ t := fun hh => h1 (List.mem_cons_of_mem h hh)
          rw [List.cons_append, List.cons_append, kahnLoop_cons, kahnLoop_cons]
          rw [relax_append_iso x 0 (adj h) (hadj h)]
          obtain ⟨hd1, hd2⟩ := relax_queue_decomp (adj h) indeg (t ++ x :: q₂)
          obtain ⟨hd1', hd2'⟩ := relax_queue_decomp (adj h) indeg (t ++ q₂)
          have hE : x ∉ (relax indeg [] (adj h)).2 := by
            intro hmem
            rcases relax_mem_queue (adj h) indeg [] x hmem with hc | hc
            · simp at hc
            · exact hadj h hc
          have hq2E : x ∉ q₂ ++ (relax indeg [] (adj h)).2 := by
            intro hmem
            rcases List.mem_append.mp hmem with hc | hc
            · exact h2 hc
            · exact hE hc
          have hmeas := relax_measure (adj h) indeg (t ++ x :: q₂)
          rw [hd2] at hmeas
          have hrecN : (t ++ (q₂ ++ (relax indeg [] (adj h)).2)).length +
              sumToNat (relax indeg (t ++ x :: q₂) (adj h)).1 ≤ N - 1 := by
            simp only [List.length_append, List.length_cons] at *
            omega
          have hstep := ih (N - 1) (by
            simp only [List.length_append, List.length_cons] at hN
            omega) t (q₂ ++ (relax indeg [] (adj h)).2)
            (relax indeg (t ++ x :: q₂) (adj h)).1 (v + 1) hrecN ht hq2E
          rw [hd2]
          have hql : (t ++ x :: q₂) ++ (relax indeg [] (adj h)).2 =
              t ++ x :: (q₂ ++ (relax indeg [] (adj h)).2) := by
            simp
          rw [hql, hstep]
          rw [hd1, ← hd1', hd2']
          have hql' : t ++ (q₂ ++ (relax indeg [] (adj h)).2) =
              (t ++ q₂) ++ (relax indeg [] (adj h)).2 := by
            simp
          rw [hql']

/-! ### `buildMaps` fold lemmas and the fresh-node property of `is_dag` -/

/-- Both endpoints of the edge are node ids (the condition under which
`is_dag` counts the edge). -/
def edgeValidFor (ids : List String) (e : CausalEdge) : Prop :=
  e.source_id ∈ ids ∧ e.target_id ∈ ids

instance (ids : List String) (e : CausalEdge) : Decidable (edgeValidFor ids e) := by
  unfold edgeValidFor
  infer_instance

theorem buildStep_of_valid (ids : List String)
    (acc : (String → List String) × List (String × Int)) (e : CausalEdge)
    (h : edgeValidFor ids e) :
    buildStep ids acc e =
      (fun s => if s = e.source_id then acc.1 s ++ [e.target_id] else acc.1 s,
       incrKey e.target_id acc.2) := by
  have h' : e.source_id ∈ ids ∧ e.target_id ∈ ids := h
  unfold buildStep
  rw [if_pos h']

theorem buildStep_of_invalid (ids : List String)
    (acc : (String → List String) × List (String × Int)) (e : CausalEdge)
    (h : ¬edgeValidFor ids e) :
    buildStep ids acc e = acc := by
  have h' : ¬(e.source_id ∈ ids ∧ e.target_id ∈ ids) := h
  unfold buildStep
  rw [if_neg h']

theorem incrKey_keys (t : String) (m : List (String × Int)) :
    (incrKey t m).map Prod.fst = m.map Prod.fst := by
  induction m with
  | nil => simp [incrKey]
  | cons p l ih =>
      simp only [incrKey, List.map_cons] at *
      rw [ih]
      by_cases h : (p.1 == t) = true
      · simp [h]
      · simp [h]

theorem incrKey_append_singleton_ne (t : String) (m : List (String × Int)) (x : String)
    (c : Int) (hxt : x ≠ t) :
    incrKey t (m ++ [(x, c)]) = incrKey t m ++ [(x, c)] := by
  simp only [incrKey, List.map_append, List.map_cons, List.map_nil]
  have : (x == t) = false := by
    simp only [beq_eq_false_iff_ne, ne_eq]
    exact hxt
  simp [this]

theorem buildFold_keys (ids : List String) (edges : List CausalEdge) :
    ∀ acc, ((edges.foldl (buildStep ids) acc).2).map Prod.fst = acc.2.map Prod.fst := by
  induction edges with
  | nil => intro acc; simp
  | cons e es ih =>
      intro acc
      rw [List.foldl_cons, ih]
      by_cases h : edgeValidFor ids e
      · rw [buildStep_of_valid ids acc e h]
        exact incrKey_keys e.target_id acc.2
      · rw [buildStep_of_invalid ids acc e h]

theorem buildFold_adj_subset (ids : List String) (edges : List CausalEdge) :
    ∀ acc, (∀ s t, t ∈ acc.1 s → t ∈ ids) →
      ∀ s t, t ∈ (edges.foldl (buildStep ids) acc).1 s → t ∈ ids := by
  induction edges with
  | nil => intro acc hacc; simpa using hacc
  | cons e es ih =>
      intro acc hacc
      rw [List.foldl_cons]
      refine ih _ ?_
      by_cases h : edgeValidFor ids e
      · rw [buildStep_of_valid ids acc e h]
        intro s t ht
        by_cases hs : s = e.source_id
        · simp only [hs, if_pos rfl] at ht
          rcases List.mem_append.mp ht with h' | h'
          · exact hacc _ _ h'
          · simp at h'
            exact h' ▸ h.2
        · simp only [if_neg hs] at ht
          exact hacc _ _ ht
      · rw [buildStep_of_invalid ids acc e h]
        exact hacc

theorem buildFold_adj_outside (ids : List String) (x : String) (hx : x ∉ ids)
    (edges : List CausalEdge) :
    ∀ acc, acc.1 x = [] → (edges.foldl (buildStep ids) acc).1 x = [] := by
  induction edges with
  | nil => intro acc hacc; simpa using hacc
  | cons e es ih =>
      intro acc hacc
      rw [List.foldl_cons]
      refine ih _ ?_
      by_cases h : edgeValidFor ids e
      · rw [buildStep_of_valid ids acc e h]
        have hxs : x ≠ e.source_id := by
          intro hc
          exact hx (hc ▸ h.1)
        simp only [if_neg hxs]
        exact hacc
      · rw [buildStep_of_invalid ids acc e h]
        exact hacc

theorem buildFold_iso (ids : List String) (x : String) (hx : x ∉ ids)
    (edges : List CausalEdge) (hval : ∀ e ∈ edges, edgeValidFor ids e) :
    ∀ (accAdj : String → List String) (accIndeg : List (String × Int)),
      edges.foldl (buildStep (ids ++ [x])) (accAdj, accIndeg ++ [(x, 0)]) =
        ((edges.foldl (buildStep ids) (accAdj, accIndeg)).1,
          (edges.foldl (buildStep ids) (accAdj, accIndeg)).2 ++ [(x, 0)]) := by
  induction edges with
  | nil => intro accAdj accIndeg; simp
  | cons e es ih =>
      intro accAdj accIndeg
      have he : edgeValidFor ids e := hval e (List.mem_cons_self e es)
      have hes : ∀ e' ∈ es, edgeValidFor ids e' :=
        fun e' h' => hval e' (List.mem_cons_of_mem e h')
      have he' : edgeValidFor (ids ++ [x]) e :=
        ⟨List.mem_append_left _ he.1, List.mem_append_left _ he.2⟩
      have hxt : x ≠ e.target_id := by
        intro hc
        exact hx (hc ▸ he.2)
      rw [List.foldl_cons, List.foldl_cons]
      rw [buildStep_of_valid (ids ++ [x]) _ e he', buildStep_of_valid ids _ e he]
      dsimp only
      rw [incrKey_append_singleton_ne e.target_id accIndeg x 0 hxt]
      exact ih hes _ _

theorem dedupFirstAux_of_disjoint (l : List String) :
    ∀ seen, l.Nodup → (∀ y ∈ l, y ∉ seen) → dedupFirstAux seen l = l := by
  induction l with
  | nil => intro seen _ _; simp [dedupFirstAux]
  | cons a l ih =>
      intro seen hnd hdisj
      have ha : a ∉ seen := hdisj a (List.mem_cons_self a l)
      rw [dedupFirstAux, if_neg ha]
      rw [ih (a :: seen) (List.Nodup.of_cons hnd)]
      intro y hy
      intro hmem
      rcases List.mem_cons.mp hmem with h | h
      · exact (List.nodup_cons.mp hnd).1 (h ▸ hy)
      · exact hdisj y (List.mem_cons_of_mem a hy) h

theorem dedupFirst_of_nodup (l : List String) (h : l.Nodup) : dedupFirst l = l :=
  dedupFirstAux_of_disjoint l [] h (by simp)

theorem is_dag_unfold (g : CausalGraph) (hne : g.nodes ≠ []) :
    g.is_dag =
      (kahnLoop (buildMaps (dedupFirst (g.nodes.map CausalNode.id)) g.edges).1
        (buildMaps (dedupFirst (g.nodes.map CausalNode.id)) g.edges).2
        (((buildMaps (dedupFirst (g.nodes.map CausalNode.id)) g.edges).2.filter
          (fun p => p.2 == 0)).map (fun p => p.1)) 0 == g.nodes.length) := by
  unfold CausalGraph.is_dag
  rw [if_neg hne]

theorem get_node_eq_none_iff (g : CausalGraph) (i : String) :
    g.get_node i = none ↔ i ∉ g.nodes.map CausalNode.id := by
  unfold CausalGraph.get_node
  rw [List.find?_eq_none]
  constructor
  · intro h hmem
    rcases List.mem_map.mp hmem with ⟨nd, hnd, hid⟩
    exact h nd hnd (by simp [hid])
  · intro h nd hnd hbeq
    exact h (List.mem_map.mpr ⟨nd, hnd, by simpa using hbeq⟩)

theorem mem_queue_mem_keys (m : List (String × Int)) (y : String)
    (hy : y ∈ (m.filter (fun p => p.2 == 0)).map (fun p => p.1)) :
    y ∈ m.map Prod.fst := by
  rcases List.mem_map.mp hy with ⟨p, hp, hfst⟩
  exact hfst ▸ List.mem_map.mpr ⟨p, List.mem_of_mem_filter hp, rfl⟩

/-- Appending a fresh node (one whose id is unknown, with every edge
endpoint among the existing node ids) does not change the result of the
Kahn DAG check: the new node is isolated, is enqueued once, and adds
exactly one visit. -/
theorem is_dag_append_fresh_node (g : CausalGraph) (n : CausalNode)
    (hval : ∀ e ∈ g.edges, edgeValidFor (g.nodes.map CausalNode.id) e)
    (hnd : (g.nodes.map CausalNode.id).Nodup)
    (hfresh : n.id ∉ g.nodes.map CausalNode.id) :
    CausalGraph.is_dag ⟨g.nodes ++ [n], g.edges, g.root_query⟩ = g.is_dag := by
  by_cases hne : g.nodes = []
  · have hedges : g.edges = [] := by
      rw [List.eq_nil_iff_forall_not_mem]
      intro e he
      have := (hval e he).1
      rw [hne] at this
      simp at this
    have h1 : g.is_dag = true := by
      unfold CausalGraph.is_dag
      rw [if_pos hne]
    rw [h1]
    show CausalGraph.is_dag ⟨g.nodes ++ [n], g.edges, g.root_query⟩ = true
    rw [hne, hedges]
    simp [CausalGraph.is_dag, dedupFirst, dedupFirstAux, buildMaps, kahnLoop_cons,
      kahnLoop_nil, relax]
  · -- both node lists are nonempty
    have hne2 : g.nodes ++ [n] ≠ [] := by simp
    have hids : (g.nodes ++ [n]).map CausalNode.id = g.nodes.map CausalNode.id ++ [n.id] := by
      simp
    have hnd2 : (g.nodes.map CausalNode.id ++ [n.id]).Nodup := by
      refine List.Nodup.append hnd (List.nodup_singleton n.id) ?_
      intro a ha hb
      simp only [List.mem_singleton] at hb
      exact hfresh (hb ▸ ha)
    have hdedup : dedupFirst (g.nodes.map CausalNode.id) = g.nodes.map CausalNode.id :=
      dedupFirst_of_nodup _ hnd
    have hdedup2 : dedupFirst ((g.nodes ++ [n]).map CausalNode.id) =
        g.nodes.map CausalNode.id ++ [n.id] := by
      rw [hids]
      exact dedupFirst_of_nodup _ hnd2
    rw [is_dag_unfold g hne]
    rw [show (CausalGraph.is_dag ⟨g.nodes ++ [n], g.edges, g.root_query⟩) =
      (kahnLoop (buildMaps (dedupFirst ((g.nodes ++ [n]).map CausalNode.id)) g.edges).1
        (buildMaps (dedupFirst ((g.nodes ++ [n]).map CausalNode.id)) g.edges).2
        (((buildMaps (dedupFirst ((g.nodes ++ [n]).map CausalNode.id)) g.edges).2.filter
          (fun p => p.2 == 0)).map (fun p => p.1)) 0 == (g.nodes ++ [n]).length) from
      is_dag_unfold ⟨g.nodes ++ [n], g.edges, g.root_query⟩ hne2]
    rw [hdedup, hdedup2]
    have hinit : (g.nodes.map CausalNode.id ++ [n.id]).map (fun i => (i, (0 : Int))) =
        (g.nodes.map CausalNode.id).map (fun i => (i, (0 : Int))) ++ [(n.id, 0)] := by
      simp
    have hiso : buildMaps (g.nodes.map CausalNode.id ++ [n.id]) g.edges =
        ((buildMaps (g.nodes.map CausalNode.id) g.edges).1,
          (buildMaps (g.nodes.map CausalNode.id) g.edges).2 ++ [(n.id, 0)]) := by
      unfold buildMaps
      rw [hinit]
      exact buildFold_iso (g.nodes.map CausalNode.id) n.id hfresh g.edges hval _ _
    rw [hiso]
    have hkeys : (buildMaps (g.nodes.map CausalNode.id) g.edges).2.map Prod.fst =
        g.nodes.map CausalNode.id := by
      unfold buildMaps
      rw [buildFold_keys]
      simp
    have hadjsub : ∀ s t, t ∈ (buildMaps (g.nodes.map CausalNode.id) g.edges).1 s →
        t ∈ g.nodes.map CausalNode.id := by
      unfold buildMaps
      exact buildFold_adj_subset _ _ _ (by simp)
    have hadjmem : ∀ s, n.id ∉ (buildMaps (g.nodes.map CausalNode.id) g.edges).1 s := by
      intro s hmem
      exact hfresh (hadjsub s n.id hmem)
    have hadjx : (buildMaps (g.nodes.map CausalNode.id) g.edges).1 n.id = [] := by
      unfold buildMaps
      exact buildFold_adj_outside _ n.id hfresh _ _ rfl
    have hqfree : n.id ∉ ((buildMaps (g.nodes.map CausalNode.id) g.edges).2.filter
        (fun p => p.2 == 0)).map (fun p => p.1) := by
      intro hmem
      have : n.id ∈ (buildMaps (g.nodes.map CausalNode.id) g.edges).2.map Prod.fst :=
        mem_queue_mem_keys _ _ (by simpa using hmem)
      rw [hkeys] at this
      exact hfresh this
    have hfilter : (((buildMaps (g.nodes.map CausalNode.id) g.edges).2 ++
        ([(n.id, 0)] : List (String × Int))).filter
          (fun p => p.2 == 0)).map (fun p => p.1) =
        (((buildMaps (g.nodes.map CausalNode.id) g.edges).2).filter
          (fun p => p.2 == 0)).map (fun p => p.1) ++ [n.id] := by
      rw [List.filter_append]
      simp
    rw [hfilter]
    have hkahn := kahnLoop_isolated
      (buildMaps (g.nodes.map CausalNode.id) g.edges).1 n.id hadjmem hadjx
      ((((buildMaps (g.nodes.map CausalNode.id) g.edges).2.filter
        (fun p : String × Int => p.2 == 0)).map
          (fun p : String × Int => p.1) ++ []).length +
        sumToNat (buildMaps (g.nodes.map CausalNode.id) g.edges).2)
      (((buildMaps (g.nodes.map CausalNode.id) g.edges).2.filter
        (fun p : String × Int => p.2 == 0)).map (fun p : String × Int => p.1)) []
      (buildMaps (g.nodes.map CausalNode.id) g.edges).2 0 le_rfl hqfree (by simp)
    simp only [List.append_nil] at hkahn
    rw [hkahn]
    simp only [List.length_append, List.length_cons, List.length_nil, Nat.zero_add]
    have hsucc : ∀ a b : Nat, ((a + 1 == b + 1) = (a == b)) := by
      intro a b
      by_cases h : a = b
      · simp [h]
      · simp [h]
    rw [hsucc]

/-! ### The DAG invariant through the mutator API -/

/-- Invariant maintained by `add_node` and the guarded edge insertion:
the Kahn check holds, every edge endpoint is a node id, and node ids are
unique. -/
def GraphInv (g : CausalGraph) : Prop :=
  g.is_dag = true ∧
    (∀ e ∈ g.edges, edgeValidFor (g.nodes.map CausalNode.id) e) ∧
    (g.nodes.map CausalNode.id).Nodup

theorem graphInv_empty (q : String) : GraphInv (emptySessionGraph q) := by
  refine ⟨rfl, ?_, ?_⟩
  · intro e he
    simp [emptySessionGraph] at he
  · simp [emptySessionGraph]

theorem graphInv_add_node (g : CausalGraph) (n : CausalNode) (h : GraphInv g) :
    GraphInv (g.add_node n).1 := by
  obtain ⟨hdag, hval, hnd⟩ := h
  obtain ⟨ns, es, rq⟩ := g
  unfold CausalGraph.add_node
  by_cases hfree : (CausalGraph.get_node ⟨ns, es, rq⟩ n.id).isNone
  · rw [if_pos hfree]
    have hfresh : n.id ∉ (CausalGraph.nodes ⟨ns, es, rq⟩).map CausalNode.id :=
      (get_node_eq_none_iff ⟨ns, es, rq⟩ n.id).mp (Option.isNone_iff_eq_none.mp hfree)
    refine ⟨?_, ?_, ?_⟩
    · show CausalGraph.is_dag ⟨ns ++ [n], es, rq⟩ = true
      rw [is_dag_append_fresh_node ⟨ns, es, rq⟩ n hval hnd hfresh]
      exact hdag
    · intro e he
      obtain ⟨hs, ht⟩ := hval e he
      refine ⟨?_, ?_⟩
      · simp only [List.map_append]
        exact List.mem_append_left _ hs
      · simp only [List.map_append]
        exact List.mem_append_left _ ht
    · show ((ns ++ [n]).map CausalNode.id).Nodup
      rw [List.map_append]
      refine List.Nodup.append hnd (by simp) ?_
      intro a ha hb
      simp only [List.map_cons, List.map_nil, List.mem_singleton] at hb
      exact hfresh (hb ▸ ha)
  · rw [if_neg hfree]
    exact ⟨hdag, hval, hnd⟩

theorem graphInv_addEdgeChecked (g : CausalGraph) (e : CausalEdge) (h : GraphInv g) :
    GraphInv (addEdgeChecked g e).1 := by
  obtain ⟨hdag, hval, hnd⟩ := h
  obtain ⟨ns, es, rq⟩ := g
  unfold addEdgeChecked
  by_cases hskip : (CausalGraph.get_node ⟨ns, es, rq⟩ e.source_id).isNone ∨
      (CausalGraph.get_node ⟨ns, es, rq⟩ e.target_id).isNone
  · rw [if_pos hskip]
    exact ⟨hdag, hval, hnd⟩
  · rw [if_neg hskip]
    push_neg at hskip
    obtain ⟨hsrc, htgt⟩ := hskip
    have hsrcmem : e.source_id ∈ ns.map CausalNode.id := by
      by_contra hc
      have := (get_node_eq_none_iff ⟨ns, es, rq⟩ e.source_id).mpr hc
      rw [this] at hsrc
      simp at hsrc
    have htgtmem : e.target_id ∈ ns.map CausalNode.id := by
      by_contra hc
      have := (get_node_eq_none_iff ⟨ns, es, rq⟩ e.target_id).mpr hc
      rw [this] at htgt
      simp at htgt
    unfold CausalGraph.add_edge
    by_cases hdup : (CausalGraph.get_edge ⟨ns, es, rq⟩ e.source_id e.target_id).isNone
    · rw [if_pos hdup]
      dsimp only
      by_cases hdag2 : CausalGraph.is_dag ⟨ns, es ++ [e], rq⟩
      · rw [if_pos hdag2]
        refine ⟨hdag2, ?_, hnd⟩
        intro e' he'
        rcases List.mem_append.mp he' with h' | h'
        · exact hval e' h'
        · simp only [List.mem_singleton] at h'
          subst h'
          exact ⟨hsrcmem, htgtmem⟩
      · rw [if_neg hdag2]
        dsimp only
        rw [List.dropLast_concat]
        exact ⟨hdag, hval, hnd⟩
    · rw [if_neg hdup]
      exact ⟨hdag, hval, hnd⟩

theorem graphInv_applyOps (ops : List GraphOp) :
    ∀ g, GraphInv g → GraphInv (ops.foldl applyOp g) := by
  induction ops with
  | nil => intro g h; simpa using h
  | cons op ops ih =>
      intro g h
      rw [List.foldl_cons]
      refine ih _ ?_
      cases op with
      | addNode n => exact graphInv_add_node g n h
      | addEdge e => exact graphInv_addEdgeChecked g e h

/-! ## Claim C1 -/

def cexNodeA : CausalNode := ⟨"a", "A", "", NodeType.VARIABLE⟩

def cexNodeB : CausalNode := ⟨"b", "B", "", NodeType.VARIABLE⟩

def cexEdgeAB : CausalEdge :=
  ⟨0, "a", "b", "causes", "", 0, EdgeStatus.PROPOSED, [], [], 0, ""⟩

def cexEdgeBA : CausalEdge :=
  ⟨1, "b", "a", "causes", "", 0, EdgeStatus.PROPOSED, [], [], 0, ""⟩

/-- Nodes `a`, `b` with the single edge `a → b`, built through the mutator
API. -/
def cexGraph : CausalGraph :=
  (((((emptySessionGraph "q").add_node cexNodeA).1).add_node cexNodeB).1.add_edge
    cexEdgeAB).1

/-- C1, counterexample: `add_edge` itself performs no cycle check — adding
`b → a` to the graph `a → b` reports "added" (`true`), the cycle-creating
edge is observable in `edges`, and the resulting graph fails `is_dag`. -/
theorem claim_C1_counterexample :
    (cexGraph.add_edge cexEdgeBA).2 = true ∧
      cexEdgeBA ∈ (cexGraph.add_edge cexEdgeBA).1.edges ∧
      (cexGraph.add_edge cexEdgeBA).1.is_dag = false := by
  refine ⟨by decide, by decide, ?_⟩
  show CausalGraph.is_dag ⟨[cexNodeA, cexNodeB], [cexEdgeAB, cexEdgeBA], "q"⟩ = false
  simp [CausalGraph.is_dag, cexNodeA, cexNodeB, cexEdgeAB, cexEdgeBA, dedupFirst,
    dedupFirstAux, buildMaps, buildStep, incrKey, decKey, List.foldl,
    kahnLoop.eq_def, relax, List.filter]

/-- C1, amended: the DAG invariant is enforced not by `add_edge` itself but
by the planner's guarded insertion (tentative `add_edge`, `is_dag` check,
`pop` on failure).  For every sequence of `add_node` / guarded-insertion
calls starting from the empty graph, `is_dag` holds after every call; the
guarded insertion rejects (reports not-added and leaves the graph
unchanged) any edge whose source or target id is not an existing node's
id, any rejected edge leaves the graph unchanged, and the guarded
insertion preserves `is_dag`, so a cycle-creating edge is never observable
in `edges`. -/
theorem claim_C1_amended :
    (∀ (q : String) (ops : List GraphOp), (applyOps q ops).is_dag = true) ∧
      (∀ (g : CausalGraph) (e : CausalEdge),
        (g.get_node e.source_id).isNone ∨ (g.get_node e.target_id).isNone →
          addEdgeChecked g e = (g, false)) ∧
      (∀ (g : CausalGraph) (e : CausalEdge), (addEdgeChecked g e).2 = false →
        (addEdgeChecked g e).1 = g) ∧
      (∀ (g : CausalGraph) (e : CausalEdge), g.is_dag = true →
        (addEdgeChecked g e).1.is_dag = true) := by
  refine ⟨?_, ?_, ?_, ?_⟩
  · intro q ops
    exact (graphInv_applyOps ops (emptySessionGraph q) (graphInv_empty q)).1
  · intro g e h
    unfold addEdgeChecked
    rw [if_pos h]
  · intro g e
    obtain ⟨ns, es, rq⟩ := g
    unfold addEdgeChecked
    by_cases hskip : (CausalGraph.get_node ⟨ns, es, rq⟩ e.source_id).isNone ∨
        (CausalGraph.get_node ⟨ns, es, rq⟩ e.target_id).isNone
    · rw [if_pos hskip]
      intro _
      rfl
    · rw [if_neg hskip]
      unfold CausalGraph.add_edge
      by_cases hdup : (CausalGraph.get_edge ⟨ns, es, rq⟩ e.source_id e.target_id).isNone
      · rw [if_pos hdup]
        dsimp only
        by_cases hdag2 : CausalGraph.is_dag ⟨ns, es ++ [e], rq⟩
        · rw [if_pos hdag2]
          intro hfalse
          simp at hfalse
        · rw [if_neg hdag2]
          intro _
          dsimp only
          rw [List.dropLast_concat]
      · rw [if_neg hdup]
        intro _
        rfl
  · intro g e hdag
    obtain ⟨ns, es, rq⟩ := g
    unfold addEdgeChecked
    by_cases hskip : (CausalGraph.get_node ⟨ns, es, rq⟩ e.source_id).isNone ∨
        (CausalGraph.get_node ⟨ns, es, rq⟩ e.target_id).isNone
    · rw [if_pos hskip]
      exact hdag
    · rw [if_neg hskip]
      unfold CausalGraph.add_edge
      by_cases hdup : (CausalGraph.get_edge ⟨ns, es, rq⟩ e.source_id e.target_id).isNone
      · rw [if_pos hdup]
        dsimp only
        by_cases hdag2 : CausalGraph.is_dag ⟨ns, es ++ [e], rq⟩
        · rw [if_pos hdag2]
          exact hdag2
        · rw [if_neg hdag2]
          dsimp only
          rw [List.dropLast_concat]
          exact hdag
      · rw [if_neg hdup]
        exact hdag

/-- C1, witness: the amended theorem applied at concrete inputs — the
guarded insertion rejects an edge with an unknown endpoint on the empty
graph, a rejected insertion leaves the graph unchanged, and the guarded
insertion preserves `is_dag` of the empty graph. -/
theorem claim_C1_witness :
    addEdgeChecked (emptySessionGraph "q") cexEdgeAB = (emptySessionGraph "q", false) ∧
      (addEdgeChecked (emptySessionGraph "q") cexEdgeAB).1 = emptySessionGraph "q" ∧
      (addEdgeChecked (emptySessionGraph "q") cexEdgeAB).1.is_dag = true := by
  refine ⟨claim_C1_amended.2.1 (emptySessionGraph "q") cexEdgeAB (by decide), ?_, ?_⟩
  · exact claim_C1_amended.2.2.1 (emptySessionGraph "q") cexEdgeAB (by decide)
  · exact claim_C1_amended.2.2.2 (emptySessionGraph "q") cexEdgeAB (by rfl)

/-! ## Claim C10 -/

theorem mem_dedupFirstAux (l : List String) :
    ∀ (seen : List String) (y : String),
      y ∈ dedupFirstAux seen l ↔ y ∈ l ∧ y ∉ seen := by
  induction l with
  | nil => intro seen y; simp [dedupFirstAux]
  | cons a l ih =>
      intro seen y
      rw [dedupFirstAux]
      by_cases ha : a ∈ seen
      · rw [if_pos ha, ih]
        constructor
        · rintro ⟨h1, h2⟩
          exact ⟨List.mem_cons_of_mem a h1, h2⟩
        · rintro ⟨h1, h2⟩
          rcases List.mem_cons.mp h1 with h | h
          · exact absurd (h ▸ ha) h2
          · exact ⟨h, h2⟩
      · rw [if_neg ha]
        constructor
        · intro h
          rcases List.mem_cons.mp h with h | h
          · exact ⟨h ▸ List.mem_cons_self a l, h ▸ ha⟩
          · obtain ⟨h1, h2⟩ := (ih (a :: seen) y).mp h
            refine ⟨List.mem_cons_of_mem a h1, ?_⟩
            intro hc
            exact h2 (List.mem_cons_of_mem a hc)
        · rintro ⟨h1, h2⟩
          rcases List.mem_cons.mp h1 with h | h
          · exact h ▸ List.mem_cons_self a _
          · by_cases hya : y = a
            · exact hya ▸ List.mem_cons_self a _
            · refine List.mem_cons_of_mem a ((ih (a :: seen) y).mpr ⟨h, ?_⟩)
              intro hc
              rcases List.mem_cons.mp hc with h' | h'
              · exact hya h'
              · exact h2 h'

theorem mem_dedupFirst (l : List String) (y : String) :
    y ∈ dedupFirst l ↔ y ∈ l := by
  rw [dedupFirst, mem_dedupFirstAux]
  simp

theorem buildFold_filter (ids : List String) (edges : List CausalEdge) :
    ∀ acc, edges.foldl (buildStep ids) acc =
      (edges.filter (fun e => decide (edgeValidFor ids e))).foldl (buildStep ids) acc := by
  induction edges with
  | nil => intro acc; rfl
  | cons e es ih =>
      intro acc
      rw [List.foldl_cons, List.filter_cons]
      by_cases h : edgeValidFor ids e
      · rw [if_pos (by simpa using h), List.foldl_cons]
        exact ih _
      · rw [if_neg (by simpa using h), buildStep_of_invalid ids acc e h]
        exact ih _

/-- C10: `is_dag` considers only edges whose source and target ids both
belong to the graph's node set — filtering out the edges with an unknown
endpoint never changes the result — and a graph whose node list is empty
is reported a DAG regardless of its edge list. -/
theorem claim_C10_is_dag_scope :
    (∀ (nodes : List CausalNode) (edges : List CausalEdge) (rq : String),
      CausalGraph.is_dag ⟨nodes, edges, rq⟩ =
        CausalGraph.is_dag
          ⟨nodes,
            edges.filter (fun e => decide (edgeValidFor (nodes.map CausalNode.id) e)),
            rq⟩) ∧
      (∀ (edges : List CausalEdge) (rq : String),
        CausalGraph.is_dag ⟨[], edges, rq⟩ = true) := by
  constructor
  · intro nodes edges rq
    by_cases hne : nodes = []
    · subst hne
      rfl
    · have hne' : (⟨nodes, edges, rq⟩ : CausalGraph).nodes ≠ [] := hne
      have hne'' : (⟨nodes,
          edges.filter (fun e => decide (edgeValidFor (nodes.map CausalNode.id) e)),
          rq⟩ : CausalGraph).nodes ≠ [] := hne
      rw [is_dag_unfold _ hne', is_dag_unfold _ hne'']
      have hfcongr : edges.filter
          (fun e => decide (edgeValidFor (dedupFirst (nodes.map CausalNode.id)) e)) =
          edges.filter (fun e => decide (edgeValidFor (nodes.map CausalNode.id) e)) := by
        refine List.filter_congr ?_
        intro e _
        simp only [decide_eq_decide]
        unfold edgeValidFor
        rw [mem_dedupFirst, mem_dedupFirst]
      have hmaps : buildMaps (dedupFirst (nodes.map CausalNode.id)) edges =
          buildMaps (dedupFirst (nodes.map CausalNode.id))
            (edges.filter (fun e => decide (edgeValidFor (nodes.map CausalNode.id) e))) := by
        unfold buildMaps
        rw [buildFold_filter, hfcongr]
      rw [hmaps]
  · intro edges rq
    rfl

/-! ## Claim C8 -/

/-- A raw mutation of the graph through `CausalGraph`'s own API (no
planner guard). -/
inductive RawGraphOp
  | addNode (n : CausalNode)
  | addEdge (e : CausalEdge)

/-- Apply one raw mutation. -/
def applyRawOp (g : CausalGraph) : RawGraphOp → CausalGraph
  | RawGraphOp.addNode n => (g.add_node n).1
  | RawGraphOp.addEdge e => (g.add_edge e).1

/-- Apply a sequence of raw mutations from the empty graph. -/
def applyRawOps (q : String) (ops : List RawGraphOp) : CausalGraph :=
  ops.foldl applyRawOp (emptySessionGraph q)

/-- At most one edge per ordered `(source_id, target_id)` pair. -/
def edgePairsNodup (g : CausalGraph) : Prop :=
  (g.edges.map (fun e => (e.source_id, e.target_id))).Nodup

instance (g : CausalGraph) : Decidable (edgePairsNodup g) := by
  unfold edgePairsNodup
  infer_instance

theorem get_edge_eq_none_iff (g : CausalGraph) (s t : String) :
    g.get_edge s t = none ↔
      (s, t) ∉ g.edges.map (fun e => (e.source_id, e.target_id)) := by
  unfold CausalGraph.get_edge
  rw [List.find?_eq_none]
  constructor
  · intro h hmem
    rcases List.mem_map.mp hmem with ⟨e, he, hpair⟩
    have h1 : e.source_id = s := congrArg Prod.fst hpair
    have h2 : e.target_id = t := congrArg Prod.snd hpair
    exact h e he (by simp [h1, h2])
  · intro h e he hbeq
    simp only [Bool.and_eq_true, beq_iff_eq] at hbeq
    exact h (List.mem_map.mpr ⟨e, he, by simp [hbeq.1, hbeq.2]⟩)

theorem edgePairsNodup_add_node (g : CausalGraph) (n : CausalNode)
    (h : edgePairsNodup g) : edgePairsNodup (g.add_node n).1 := by
  unfold CausalGraph.add_node
  by_cases hfree : (g.get_node n.id).isNone
  · rw [if_pos hfree]
    exact h
  · rw [if_neg hfree]
    exact h

theorem edgePairsNodup_add_edge (g : CausalGraph) (e : CausalEdge)
    (h : edgePairsNodup g) : edgePairsNodup (g.add_edge e).1 := by
  obtain ⟨ns, es, rq⟩ := g
  unfold CausalGraph.add_edge
  by_cases hdup : (CausalGraph.get_edge ⟨ns, es, rq⟩ e.source_id e.target_id).isNone
  · rw [if_pos hdup]
    have hne := (get_edge_eq_none_iff ⟨ns, es, rq⟩ e.source_id e.target_id).mp
      (Option.isNone_iff_eq_none.mp hdup)
    show (((es ++ [e]).map (fun e => (e.source_id, e.target_id)))).Nodup
    rw [List.map_append]
    refine List.Nodup.append h (by simp) ?_
    intro a ha hb
    simp only [List.map_cons, List.map_nil, List.mem_singleton] at hb
    exact hne (hb ▸ ha)
  · rw [if_neg hdup]
    exact h

theorem edgePairsNodup_applyRawOps (ops : List RawGraphOp) :
    ∀ g, edgePairsNodup g → edgePairsNodup (ops.foldl applyRawOp g) := by
  induction ops with
  | nil => intro g h; simpa using h
  | cons op ops ih =>
      intro g h
      rw [List.foldl_cons]
      refine ih _ ?_
      cases op with
      | addNode n => exact edgePairsNodup_add_node g n h
      | addEdge e => exact edgePairsNodup_add_edge g e h

/-- C8: a `CausalGraph` built through the mutator API holds at most one
edge per ordered `(sourceId, targetId)` pair, and `add_edge` called with a
pair that is already present returns "not added" and leaves the graph —
its node and edge sets included — unchanged. -/
theorem claim_C8_edge_identity :
    (∀ (g : CausalGraph) (e : CausalEdge),
      g.get_edge e.source_id e.target_id ≠ none → g.add_edge e = (g, false)) ∧
      (∀ (g : CausalGraph) (e : CausalEdge),
        edgePairsNodup g → edgePairsNodup (g.add_edge e).1) ∧
      (∀ (q : String) (ops : List RawGraphOp), edgePairsNodup (applyRawOps q ops)) := by
  refine ⟨?_, ?_, ?_⟩
  · intro g e h
    unfold CausalGraph.add_edge
    rw [if_neg (by simpa [Option.isNone_iff_eq_none] using h)]
  · exact edgePairsNodup_add_edge
  · intro q ops
    refine edgePairsNodup_applyRawOps ops (emptySessionGraph q) ?_
    simp [edgePairsNodup, emptySessionGraph]

/-- C8, witness: the duplicate-rejection branch applied at a concrete
graph already containing the `("a","b")` pair. -/
theorem claim_C8_witness :
    cexGraph.add_edge cexEdgeAB = (cexGraph, false) ∧
      edgePairsNodup (cexGraph.add_edge cexEdgeAB).1 :=
  ⟨claim_C8_edge_identity.1 cexGraph cexEdgeAB (by decide),
   claim_C8_edge_identity.2.1 cexGraph cexEdgeAB (by decide)⟩

/-! ## Edge selector (`src/agents/nodes/edge_selector.py`)

`_get_candidate_edges` skips edges that are `VERIFIED`/`FALSIFIED` or have
`investigation_count >= max_investigations_per_edge`.  `_select_best_edge`
scores each candidate, sorts the `(score, edge)` list by score descending
with Python's stable sort (`scored.sort(key=..., reverse=True)`: ties keep
original order) and returns the first entry's edge; on an empty candidate
list it raises `ValueError`, embedded as `none`. -/

/-- `EdgeSelectorNode._get_candidate_edges`. -/
def getCandidateEdges (max_investigations_per_edge : Int) (g : CausalGraph) :
    List CausalEdge :=
  g.edges.filter (fun e =>
    !(e.status == EdgeStatus.VERIFIED || e.status == EdgeStatus.FALSIFIED) &&
      !(e.investigation_count ≥ max_investigations_per_edge))

/-- The scoring loop body of `_select_best_edge`: `+100` PROPOSED / `+50`
UNCLEAR, `-20 × investigation_count`, `+30` when the target node's kind is
OUTCOME, `+20` when the source node's kind is OUTCOME. -/
def edgeScore (g : CausalGraph) (e : CausalEdge) : Int :=
  (if e.status == EdgeStatus.PROPOSED then 100
   else if e.status == EdgeStatus.UNCLEAR then 50 else 0) -
    e.investigation_count * 20 +
    (match g.get_node e.target_id with
     | some tn => if tn.node_type == NodeType.OUTCOME then 30 else 0
     | none => 0) +
    (match g.get_node e.source_id with
     | some sn => if sn.node_type == NodeType.OUTCOME then 20 else 0
     | none => 0)

/-- Stable descending insertion used to embed Python's stable sort with
`reverse=True`: an element is placed before the first strictly-smaller
key, after equal keys already placed (which came later in the original
list), so ties keep original order. -/
def insertDesc (x : Int × CausalEdge) : List (Int × CausalEdge) → List (Int × CausalEdge)
  | [] => [x]
  | y :: ys => if x.1 ≥ y.1 then x :: y :: ys else y :: insertDesc x ys

/-- Stable sort of the scored list by score, descending (the unique result
of any stable descending sort, hence of `scored.sort(key=..., reverse=True)`). -/
def sortScoredDesc : List (Int × CausalEdge) → List (Int × CausalEdge)
  | [] => []
  | x :: xs => insertDesc x (sortScoredDesc xs)

/-- `EdgeSelectorNode._select_best_edge`: score the candidates, stable-sort
descending, return the first edge (`none` embeds the `ValueError` on an
empty candidate list). -/
def selectBestEdge (candidates : List CausalEdge) (g : CausalGraph) :
    Option CausalEdge :=
  ((sortScoredDesc (candidates.map (fun e => (edgeScore g e, e)))).head?).map
    (fun p => p.2)

/-- Modelled from the spec's words, for comparison with the code: "Select
max score (stable tie-break: first candidate in original edge order)" —
the first element of the scored list attaining the maximal score. -/
def specFirstMaxScored : List (Int × CausalEdge) → Option (Int × CausalEdge)
  | [] => none
  | x :: xs =>
      match specFirstMaxScored xs with
      | none => some x
      | some y => if x.1 ≥ y.1 then some x else some y

/-- Spec-level selection: the first candidate attaining the maximal score. -/
def specSelectBestEdge (candidates : List CausalEdge) (g : CausalGraph) :
    Option CausalEdge :=
  (specFirstMaxScored (candidates.map (fun e => (edgeScore g e, e)))).map
    (fun p => p.2)

theorem insertDesc_head (x : Int × CausalEdge) (l : List (Int × CausalEdge)) :
    (insertDesc x l).head? =
      match l.head? with
      | none => some x
      | some y => if x.1 ≥ y.1 then some x else some y := by
  cases l with
  | nil => rfl
  | cons y ys =>
      rw [insertDesc]
      by_cases h : x.1 ≥ y.1
      · rw [if_pos h]
        simp [h]
      · rw [if_neg h]
        simp [h]

theorem sortScoredDesc_head_eq_firstMax (l : List (Int × CausalEdge)) :
    (sortScoredDesc l).head? = specFirstMaxScored l := by
  induction l with
  | nil => rfl
  | cons x xs ih =>
      rw [sortScoredDesc, specFirstMaxScored, insertDesc_head, ih]

theorem specFirstMaxScored_eq_none_iff (l : List (Int × CausalEdge)) :
    specFirstMaxScored l = none ↔ l = [] := by
  cases l with
  | nil => simp [specFirstMaxScored]
  | cons x xs =>
      simp only [specFirstMaxScored]
      cases specFirstMaxScored xs with
      | none => simp
      | some y =>
          dsimp only
          by_cases h : x.1 ≥ y.1
          · rw [if_pos h]
            simp
          · rw [if_neg h]
            simp

theorem specFirstMaxScored_spec (l : List (Int × CausalEdge)) (y : Int × CausalEdge)
    (h : specFirstMaxScored l = some y) :
    y ∈ l ∧ (∀ z ∈ l, z.1 ≤ y.1) ∧
      ∃ l₁ l₂, l = l₁ ++ y :: l₂ ∧ ∀ z ∈ l₁, z.1 < y.1 := by
  induction l generalizing y with
  | nil => simp [specFirstMaxScored] at h
  | cons x xs ih =>
      rw [specFirstMaxScored] at h
      cases hxs : specFirstMaxScored xs with
      | none =>
          rw [hxs] at h
          dsimp only at h
          injection h with h
          subst h
          have hnil : xs = [] := (specFirstMaxScored_eq_none_iff xs).mp hxs
          subst hnil
          refine ⟨List.mem_cons_self _ _, ?_, [], [], rfl, ?_⟩
          · intro z hz
            rcases List.mem_cons.mp hz with h | h
            · exact h ▸ le_rfl
            · simp at h
          · intro z hz
            simp at hz
      | some w =>
          rw [hxs] at h
          dsimp only at h
          obtain ⟨hwmem, hwmax, w₁, w₂, hsplit, hfirst⟩ := ih w hxs
          by_cases hge : x.1 ≥ w.1
          · rw [if_pos hge] at h
            injection h with h
            subst h
            refine ⟨List.mem_cons_self _ _, ?_, [], xs, rfl, ?_⟩
            · intro z hz
              rcases List.mem_cons.mp hz with h | h
              · exact h ▸ le_rfl
              · exact le_trans (hwmax z h) hge
            · intro z hz
              simp at hz
          · rw [if_neg hge] at h
            injection h with h
            subst h
            push_neg at hge
            refine ⟨List.mem_cons_of_mem x hwmem, ?_, x :: w₁, w₂,
              by rw [hsplit, List.cons_append], ?_⟩
            · intro z hz
              rcases List.mem_cons.mp hz with h | h
              · exact h ▸ le_of_lt hge
              · exact hwmax z h
            · intro z hz
              rcases List.mem_cons.mp hz with h | h
              · exact h ▸ hge
              · exact hfirst z h

theorem map_split_of_eq {α β : Type} (f : α → β) (l : List α) (l₁ l₂ : List β)
    (y : β) (h : l.map f = l₁ ++ y :: l₂) :
    ∃ m₁ x m₂, l = m₁ ++ x :: m₂ ∧ m₁.map f = l₁ ∧ f x = y ∧ m₂.map f = l₂ := by
  induction l generalizing l₁ with
  | nil => simp at h
  | cons a as ih =>
      cases l₁ with
      | nil =>
          simp only [List.map_cons, List.nil_append] at h
          injection h with h1 h2
          exact ⟨[], a, as, rfl, rfl, h1, h2⟩
      | cons b bs =>
          simp only [List.map_cons, List.cons_append] at h
          injection h with h1 h2
          obtain ⟨m₁, x, m₂, hl, hm₁, hx, hm₂⟩ := ih bs h2
          exact ⟨a :: m₁, x, m₂, by rw [hl, List.cons_append],
            by rw [List.map_cons, hm₁, h1], hx, hm₂⟩

/-- C5: edge selection is deterministic (the embedding is a pure function
of the graph and candidate list), every candidate is an edge of the graph
that is neither `VERIFIED` nor `FALSIFIED` and has
`investigation_count < max_investigations_per_edge`, and the selection
equals the spec-level rule: the first candidate, in original edge order,
attaining the maximal score
`(+100 PROPOSED / +50 UNCLEAR) - 20·investigationCount
 + 30 (target OUTCOME) + 20 (source OUTCOME)`. -/
theorem claim_C5_selector :
    (∀ (m : Int) (g : CausalGraph) (e : CausalEdge), e ∈ getCandidateEdges m g →
      e ∈ g.edges ∧ e.status ≠ EdgeStatus.VERIFIED ∧
        e.status ≠ EdgeStatus.FALSIFIED ∧ e.investigation_count < m) ∧
      (∀ (candidates : List CausalEdge) (g : CausalGraph),
        selectBestEdge candidates g = specSelectBestEdge candidates g) ∧
      (∀ (candidates : List CausalEdge) (g : CausalGraph) (e : CausalEdge),
        selectBestEdge candidates g = some e →
          e ∈ candidates ∧ (∀ c ∈ candidates, edgeScore g c ≤ edgeScore g e) ∧
            ∃ l₁ l₂, candidates = l₁ ++ e :: l₂ ∧
              ∀ c ∈ l₁, edgeScore g c < edgeScore g e) := by
  refine ⟨?_, ?_, ?_⟩
  · intro m g e he
    obtain ⟨hmem, hcond⟩ := List.mem_filter.mp he
    simp only [Bool.and_eq_true, Bool.not_eq_true', Bool.or_eq_false_iff,
      beq_eq_false_iff_ne, ne_eq, decide_eq_false_iff_not, not_le] at hcond
    exact ⟨hmem, hcond.1.1, hcond.1.2, hcond.2⟩
  · intro candidates g
    unfold selectBestEdge specSelectBestEdge
    rw [sortScoredDesc_head_eq_firstMax]
  · intro candidates g e hsel
    unfold selectBestEdge at hsel
    rw [sortScoredDesc_head_eq_firstMax] at hsel
    cases hy : specFirstMaxScored (candidates.map (fun e => (edgeScore g e, e))) with
    | none => rw [hy] at hsel; simp at hsel
    | some y =>
        rw [hy] at hsel
        have hy2 : y.2 = e := by simpa using hsel
        obtain ⟨hymem, hymax, l₁, l₂, hsplit, hfirst⟩ := specFirstMaxScored_spec _ y hy
        rcases List.mem_map.mp hymem with ⟨e', he', hye⟩
        have hy1 : y.1 = edgeScore g e := by
          have h1 : y.1 = edgeScore g e' := by rw [← hye]
          have h2 : e' = e := by
            have h3 : y.2 = e' := by rw [← hye]
            rw [← h3, hy2]
          rw [h1, h2]
        obtain ⟨m₁, x, m₂, hcand, hm₁, hx, hm₂⟩ :=
          map_split_of_eq (fun e => (edgeScore g e, e)) candidates l₁ l₂ y hsplit
        have hxe : x = e := by
          have : (edgeScore g x, x).2 = y.2 := by rw [hx]
          simpa [hy2] using this
        refine ⟨?_, ?_, m₁, m₂, by rw [hcand, hxe], ?_⟩
        · rw [hcand, hxe]
          exact List.mem_append_right _ (List.mem_cons_self _ _)
        · intro c hc
          have : (edgeScore g c, c) ∈ candidates.map (fun e => (edgeScore g e, e)) :=
            List.mem_map.mpr ⟨c, hc, rfl⟩
          have := hymax _ this
          simpa [hy1] using this
        · intro c hc
          have : (edgeScore g c, c) ∈ l₁ := by
            rw [← hm₁]
            exact List.mem_map.mpr ⟨c, hc, rfl⟩
          have := hfirst _ this
          simpa [hy1] using this

def scnNodeA : CausalNode := ⟨"a", "A", "", NodeType.VARIABLE⟩

def scnNodeB : CausalNode := ⟨"b", "B", "", NodeType.MEDIATOR⟩

def scnNodeC : CausalNode := ⟨"c", "C", "", NodeType.OUTCOME⟩

def scnEdgeAB : CausalEdge :=
  ⟨0, "a", "b", "increases", "", 0, EdgeStatus.PROPOSED, [], [], 0, ""⟩

def scnEdgeBC : CausalEdge :=
  ⟨1, "b", "c", "leads to", "", 0, EdgeStatus.PROPOSED, [], [], 0, ""⟩

/-- The spec's selector scenario graph: `A(VARIABLE)`, `B(MEDIATOR)`,
`C(OUTCOME)`, proposed edges `A→B` and `B→C`. -/
def scnGraph : CausalGraph :=
  ⟨[scnNodeA, scnNodeB, scnNodeC], [scnEdgeAB, scnEdgeBC], "q"⟩

/-- C5, witness: the selector theorem applied at the spec's scenario graph
— `A→B` is a candidate with the claimed properties, and the selected edge
(`B→C`, score 130 vs 100) is a maximal-score candidate appearing first
among ties. -/
theorem claim_C5_witness :
    (scnEdgeAB ∈ scnGraph.edges ∧ scnEdgeAB.status ≠ EdgeStatus.VERIFIED ∧
      scnEdgeAB.status ≠ EdgeStatus.FALSIFIED ∧ scnEdgeAB.investigation_count < 2) ∧
      (scnEdgeBC ∈ getCandidateEdges 2 scnGraph ∧
        (∀ c ∈ getCandidateEdges 2 scnGraph,
          edgeScore scnGraph c ≤ edgeScore scnGraph scnEdgeBC) ∧
        ∃ l₁ l₂, getCandidateEdges 2 scnGraph = l₁ ++ scnEdgeBC :: l₂ ∧
          ∀ c ∈ l₁, edgeScore scnGraph c < edgeScore scnGraph scnEdgeBC) :=
  ⟨claim_C5_selector.1 2 scnGraph scnEdgeAB (by decide),
   claim_C5_selector.2.2 (getCandidateEdges 2 scnGraph) scnGraph scnEdgeBC (by decide)⟩

/-! ## Counter-map reducer (`src/agents/state.py`, `merge_counter_map`)

Python dicts embedded as association lists in insertion order:
`merged.get(key, 0)` is `lookupD`, `merged[key] = v` is `setCounter`
(update in place when the key exists, else append). -/

/-- `m.get(k, d)`. -/
def lookupD (m : List (String × Int)) (k : String) (d : Int) : Int :=
  match m.find? (fun p => p.1 == k) with
  | some p => p.2
  | none => d

/-- `m[k] = v`: update the entry in place when the key exists, else append
it (Python dict assignment). -/
def setCounter (m : List (String × Int)) (k : String) (v : Int) : List (String × Int) :=
  if m.any (fun p => p.1 == k) then
    m.map (fun p => if p.1 == k then (p.1, v) else p)
  else
    m ++ [(k, v)]

/-- `merge_counter_map`: copy `existing`, then for each `(key, delta)` of
`new` set `merged[key] = merged.get(key, 0) + delta`. -/
def merge_counter_map (existing new : List (String × Int)) : List (String × Int) :=
  new.foldl (fun merged kv => setCounter merged kv.1 (lookupD merged kv.1 0 + kv.2))
    existing

theorem lookupD_nil (k : String) (d : Int) : lookupD [] k d = d := rfl

theorem lookupD_cons (q : String × Int) (t : List (String × Int)) (k : String) (d : Int) :
    lookupD (q :: t) k d = if (q.1 == k) = true then q.2 else lookupD t k d := by
  unfold lookupD
  rw [List.find?_cons]
  by_cases h : (q.1 == k) = true
  · simp [h]
  · simp [h]

theorem lookupD_map_set_of_any (k : String) (v d : Int) (m : List (String × Int))
    (h : m.any (fun p => p.1 == k) = true) :
    lookupD (m.map (fun p => if p.1 == k then (p.1, v) else p)) k d = v := by
  induction m with
  | nil => simp at h
  | cons q t ih =>
      rw [List.map_cons]
      by_cases hq : (q.1 == k) = true
      · rw [if_pos hq, lookupD_cons]
        simp [hq]
      · rw [if_neg hq, lookupD_cons, if_neg hq]
        refine ih ?_
        rw [List.any_cons] at h
        simpa [hq] using h

theorem lookupD_append_new (k : String) (v d : Int) (m : List (String × Int))
    (h : ∀ p ∈ m, (p.1 == k) = false) :
    lookupD (m ++ [(k, v)]) k d = v := by
  induction m with
  | nil =>
      rw [List.nil_append, lookupD_cons]
      simp
  | cons q t ih =>
      rw [List.cons_append, lookupD_cons,
        if_neg (by simp [h q (List.mem_cons_self q t)])]
      exact ih (fun p hp => h p (List.mem_cons_of_mem q hp))

theorem lookupD_setCounter_same (m : List (String × Int)) (k : String) (v d : Int) :
    lookupD (setCounter m k v) k d = v := by
  unfold setCounter
  by_cases h : m.any (fun p => p.1 == k)
  · rw [if_pos h]
    exact lookupD_map_set_of_any k v d m h
  · rw [if_neg h]
    refine lookupD_append_new k v d m ?_
    intro p hp
    by_contra hc
    rw [Bool.not_eq_false] at hc
    exact h (List.any_eq_true.mpr ⟨p, hp, hc⟩)

theorem lookupD_setCounter_other (m : List (String × Int)) (k k' : String) (v d : Int)
    (hne : k' ≠ k) : lookupD (setCounter m k v) k' d = lookupD m k' d := by
  unfold setCounter
  by_cases h : m.any (fun p => p.1 == k)
  · rw [if_pos h]
    clear h
    induction m with
    | nil => rfl
    | cons q t ih =>
        rw [List.map_cons, lookupD_cons, lookupD_cons]
        by_cases hq : (q.1 == k) = true
        · have hq' : (q.1 == k') = false := by
            have hqk : q.1 = k := by simpa using hq
            simp [hqk]
            intro hc
            exact hne hc.symm
          rw [if_pos hq]
          have h1 : (((q.1, v) : String × Int).1 == k') = false := hq'
          rw [if_neg (by simp [h1]), if_neg (by simp [hq'])]
          exact ih
        · rw [if_neg hq]
          by_cases hq' : (q.1 == k') = true
          · rw [if_pos hq', if_pos hq']
          · rw [if_neg hq', if_neg hq']
            exact ih
  · rw [if_neg h]
    clear h
    induction m with
    | nil =>
        rw [List.nil_append, lookupD_cons,
          if_neg (by simp; intro hc; exact hne hc.symm)]
    | cons q t ih =>
        rw [List.cons_append, lookupD_cons, lookupD_cons]
        by_cases hq' : (q.1 == k') = true
        · rw [if_pos hq', if_pos hq']
        · rw [if_neg hq', if_neg hq']
          exact ih

theorem lookupD_merge_not_mem (new : List (String × Int)) :
    ∀ (m : List (String × Int)) (k : String) (d : Int),
      k ∉ new.map Prod.fst → lookupD (merge_counter_map m new) k d = lookupD m k d := by
  induction new with
  | nil => intro m k d _; rfl
  | cons kv rest ih =>
      intro m k d hk
      have hk1 : k ≠ kv.1 := by
        intro hc
        exact hk (List.mem_map.mpr ⟨kv, List.mem_cons_self kv rest, hc.symm⟩)
      have hkrest : k ∉ rest.map Prod.fst := by
        intro hc
        rcases List.mem_map.mp hc with ⟨p, hp, hpk⟩
        exact hk (List.mem_map.mpr ⟨p, List.mem_cons_of_mem kv hp, hpk⟩)
      show lookupD (merge_counter_map
        (setCounter m kv.1 (lookupD m kv.1 0 + kv.2)) rest) k d = lookupD m k d
      rw [ih _ k d hkrest, lookupD_setCounter_other _ _ _ _ _ hk1]

theorem lookupD_merge (new : List (String × Int)) :
    ∀ (m : List (String × Int)) (k : String),
      (new.map Prod.fst).Nodup →
      lookupD (merge_counter_map m new) k 0 = lookupD m k 0 + lookupD new k 0 := by
  induction new with
  | nil => intro m k _; simp [merge_counter_map, lookupD_nil]
  | cons kv rest ih =>
      intro m k hnd
      rw [List.map_cons, List.nodup_cons] at hnd
      obtain ⟨hhead, hrest⟩ := hnd
      show lookupD (merge_counter_map
        (setCounter m kv.1 (lookupD m kv.1 0 + kv.2)) rest) k 0 =
        lookupD m k 0 + lookupD (kv :: rest) k 0
      by_cases hk : k = kv.1
      · subst hk
        rw [lookupD_merge_not_mem rest _ kv.1 0 hhead, lookupD_setCounter_same,
          lookupD_cons, if_pos (by simp)]
      · rw [ih _ k hrest, lookupD_setCounter_other _ _ _ _ _ hk, lookupD_cons,
          if_neg (by simp; intro hc; exact hk hc.symm)]

/-- C9: the action-hash merge is an additive delta-sum — folding the
update `{h1: 1}` twice into any existing map increases `actionHashes[h1]`
by 2, and for key-deduplicated updates the merged result is, pointwise,
the sum of the existing value and both deltas, hence independent of the
order in which the two updates are folded. -/
theorem claim_C9_merge :
    (∀ (m : List (String × Int)) (h1 : String),
      lookupD (merge_counter_map (merge_counter_map m [(h1, 1)]) [(h1, 1)]) h1 0 =
        lookupD m h1 0 + 2) ∧
      (∀ (m u1 u2 : List (String × Int)) (k : String),
        (u1.map Prod.fst).Nodup → (u2.map Prod.fst).Nodup →
        lookupD (merge_counter_map (merge_counter_map m u1) u2) k 0 =
          lookupD (merge_counter_map (merge_counter_map m u2) u1) k 0) := by
  constructor
  · intro m h1
    have hnd : (([(h1, (1 : Int))]).map Prod.fst).Nodup := by simp
    rw [lookupD_merge _ _ _ hnd, lookupD_merge _ _ _ hnd]
    have : lookupD [(h1, 1)] h1 0 = 1 := by
      unfold lookupD
      rw [List.find?_cons_of_pos _ (by simp)]
    rw [this]
    omega
  · intro m u1 u2 k h1 h2
    rw [lookupD_merge _ _ _ h2, lookupD_merge _ _ _ h1,
      lookupD_merge _ _ _ h1, lookupD_merge _ _ _ h2]
    omega

/-- C9, witness: the merge theorem applied at a concrete map and the two
concrete singleton delta updates. -/
theorem claim_C9_witness :
    lookupD (merge_counter_map (merge_counter_map [("h0", 5)] [("h1", 1)])
      [("h1", 1)]) "h1" 0 = lookupD [("h0", 5)] "h1" 0 + 2 ∧
      lookupD (merge_counter_map (merge_counter_map [("h0", 5)] [("h1", 1)])
        [("h2", 1)]) "h1" 0 =
        lookupD (merge_counter_map (merge_counter_map [("h0", 5)] [("h2", 1)])
          [("h1", 1)]) "h1" 0 :=
  ⟨claim_C9_merge.1 [("h0", 5)] "h1",
   claim_C9_merge.2 [("h0", 5)] [("h1", 1)] [("h2", 1)] "h1" (by decide) (by decide)⟩

/-! ## Workflow state, auditor, and routing
(`src/agents/state.py`, `src/agents/nodes/auditor.py`, `src/graph/cag_graph.py`)

The auditor's feedback lines are Python f-strings; they are embedded as an
inductive type with one constructor per message template.  The caller
detects the critical visit-cap line with the substring test
`"CRITICAL" in i`, and the depth stop with `"Max recursion depth" in
depth_msg`; among the messages the auditor produces, exactly the
`visitCritical` template contains `"CRITICAL"` and exactly the
`depthReached` template contains `"Max recursion depth"` (assuming step
names do not themselves contain these markers), so the substring tests are
embedded as constructor tests.  The `error` value Python builds by joining
the critical messages is embedded as the list of critical issues (its
text left abstract). -/

/-- One feedback line of the auditor, one constructor per message template
of `auditor.py`. -/
inductive AuditIssue
  | depthReached (current maxd : Int)
  | depthApproaching (current maxd : Int)
  | manyDistinctActions
  | repeatedAction (hash : String) (count : Int)
  | visitCritical (node : String) (count : Int)
  | visitWarning (node : String) (count : Int)
  | noGraph
  | noEdges
  | noVerdicts
  | allPassed
deriving DecidableEq, Repr

/-- `"CRITICAL" in i`: true exactly for the `visitCritical` template. -/
def issueIsCritical : AuditIssue → Bool
  | AuditIssue.visitCritical _ _ => true
  | _ => false

/-- The workflow state (`ResearchState`), restricted to the fields the
verified components read or write.  `error` carries the critical issues
(Python joins their messages into one string). -/
structure ResearchState where
  root_query : String
  research_goal : String
  causal_graph : Option CausalGraph
  focus_edge : Option CausalEdge
  supporting_evidence : List Evidence
  contradicting_evidence : List Evidence
  recursion_depth : Int
  max_depth : Int
  stop_reason : Option String
  total_edges_investigated : Int
  node_visit_counts : List (String × Int)
  audit_feedback : List AuditIssue
  action_hashes : List (String × Int)
  error : Option (List AuditIssue)
deriving Repr

/-- `AuditorNode._check_depth`. -/
def checkDepth (st : ResearchState) : Option AuditIssue :=
  if st.recursion_depth ≥ st.max_depth then
    some (AuditIssue.depthReached st.recursion_depth st.max_depth)
  else if st.recursion_depth ≥ st.max_depth - 1 then
    some (AuditIssue.depthApproaching st.recursion_depth st.max_depth)
  else
    none

/-- `max(action_hashes.items(), key=lambda kv: kv[1])`: Python's `max`
keeps the first maximal element on ties. -/
def firstMaxByVal : List (String × Int) → Option (String × Int)
  | [] => none
  | x :: xs =>
      match firstMaxByVal xs with
      | none => some x
      | some y => if x.2 ≥ y.2 then some x else some y

/-- `AuditorNode._check_loops`. -/
def checkLoops (max_same_action : Int) (st : ResearchState) : Option AuditIssue :=
  if st.action_hashes.length > 50 then
    some AuditIssue.manyDistinctActions
  else
    match firstMaxByVal st.action_hashes with
    | none => none
    | some w => if w.2 > max_same_action then
        some (AuditIssue.repeatedAction w.1 w.2)
      else none

/-- `AuditorNode._check_visits`: return on the first entry, in dict order,
whose count reaches a threshold. -/
def checkVisits (max_node_visits : Int) : List (String × Int) → Option AuditIssue
  | [] => none
  | (name, c) :: rest =>
      if c ≥ max_node_visits then some (AuditIssue.visitCritical name c)
      else if c ≥ max_node_visits - 2 then some (AuditIssue.visitWarning name c)
      else checkVisits max_node_visits rest

/-- `AuditorNode._check_progress`. -/
def checkProgress (st : ResearchState) : Option AuditIssue :=
  match st.causal_graph with
  | none => some AuditIssue.noGraph
  | some g =>
      if g.edges.length = 0 then some AuditIssue.noEdges
      else if st.total_edges_investigated > 5 ∧
          ((g.get_edges_by_status EdgeStatus.VERIFIED).length : Int) +
            ((g.get_edges_by_status EdgeStatus.FALSIFIED).length : Int) = 0 then
        some AuditIssue.noVerdicts
      else none

/-- The updates dict returned by `AuditorNode.__call__`; an `Option` field
is `none` when the key is absent from the dict. -/
structure AuditorUpdates where
  stop_reason : Option String := none
  audit_feedback : List AuditIssue := []
  error : Option (List AuditIssue) := none
deriving DecidableEq, Repr

/-- The non-stop path of `AuditorNode.__call__`: collect the issues of the
four checks in order (the depth message here is the approaching-warning or
nothing, since the depth stop returned early), report them as feedback,
and set `error` iff a critical issue is present. -/
def auditorIssuesResult (max_node_visits max_same_action : Int) (st : ResearchState) :
    AuditorUpdates :=
  let issues := (checkDepth st).toList ++ (checkLoops max_same_action st).toList ++
    (checkVisits max_node_visits st.node_visit_counts).toList ++
    (checkProgress st).toList
  if issues ≠ [] then
    { audit_feedback := issues,
      error := if issues.filter issueIsCritical ≠ [] then
          some (issues.filter issueIsCritical)
        else none }
  else
    { audit_feedback := [AuditIssue.allPassed] }

/-- `AuditorNode.__call__`: the depth stop returns early with
`stop_reason = "max_depth"` (and, notably, no `error`); otherwise the
non-stop issues are collected, reported as feedback, and an `error` is set
iff a critical issue is present. -/
def auditorStep (max_node_visits max_same_action : Int) (st : ResearchState) :
    AuditorUpdates :=
  match checkDepth st with
  | some (AuditIssue.depthReached c m) =>
      { stop_reason := some "max_depth",
        audit_feedback := [AuditIssue.depthReached c m] }
  | _ => auditorIssuesResult max_node_visits max_same_action st

/-- Folding the auditor's update dict into the state, per the state
schema's merge policies: `stop_reason` and `error` are plain fields
(replaced when the key is present), `audit_feedback` uses the appending
reducer `merge_audit_feedback`. -/
def applyAuditorUpdates (st : ResearchState) (u : AuditorUpdates) : ResearchState :=
  { st with
    stop_reason := match u.stop_reason with
      | some s => some s
      | none => st.stop_reason,
    audit_feedback := st.audit_feedback ++ u.audit_feedback,
    error := match u.error with
      | some e => some e
      | none => st.error }

/-- The successors of the auditor node in `CAGGraphBuilder.build`: the
conditional edge maps `"continue"` to the selector and `"error"` to the
error handler; no edge from the auditor to the writer exists. -/
inductive AuditRoute
  | toSelector
  | toErrorHandler
deriving DecidableEq, Repr

/-- `CAGGraphBuilder._route_after_audit` composed with the conditional-edge
mapping `{"continue": "selector", "error": "error_handler"}`: only the
`error` field is consulted; `stop_reason` is never read. -/
def routeAfterAudit (st : ResearchState) : AuditRoute :=
  if st.error.isSome then AuditRoute.toErrorHandler else AuditRoute.toSelector

theorem checkDepth_of_reached (st : ResearchState)
    (h : st.recursion_depth ≥ st.max_depth) :
    checkDepth st = some (AuditIssue.depthReached st.recursion_depth st.max_depth) := by
  unfold checkDepth
  rw [if_pos h]

theorem auditorStep_of_reached (mv ma : Int) (st : ResearchState)
    (h : st.recursion_depth ≥ st.max_depth) :
    auditorStep mv ma st =
      { stop_reason := some "max_depth",
        audit_feedback := [AuditIssue.depthReached st.recursion_depth st.max_depth],
        error := none } := by
  unfold auditorStep
  rw [checkDepth_of_reached st h]

theorem auditorStep_of_lt (mv ma : Int) (st : ResearchState)
    (h : st.recursion_depth < st.max_depth) :
    auditorStep mv ma st = auditorIssuesResult mv ma st := by
  unfold auditorStep checkDepth
  rw [if_neg (not_le.mpr h)]
  by_cases happ : st.recursion_depth ≥ st.max_depth - 1
  · rw [if_pos happ]
  · rw [if_neg happ]

/-- C2: when the auditor runs on a state with
`recursion_depth ≥ max_depth` it does set `stop_reason = "max_depth"`
(with the depth message as the only feedback and no `error`), but the
workflow then transitions from the audit step to the **selector**, not to
synthesis: `_route_after_audit` consults only `error`, never
`stop_reason`, and the graph has no auditor → writer edge. -/
theorem claim_C2_depth_stop_not_routed (mv ma : Int) (st : ResearchState)
    (h : st.recursion_depth ≥ st.max_depth) (herr : st.error = none) :
    (auditorStep mv ma st).stop_reason = some "max_depth" ∧
      (auditorStep mv ma st).error = none ∧
      routeAfterAudit (applyAuditorUpdates st (auditorStep mv ma st)) =
        AuditRoute.toSelector := by
  rw [auditorStep_of_reached mv ma st h]
  refine ⟨rfl, rfl, ?_⟩
  unfold applyAuditorUpdates routeAfterAudit
  dsimp only
  rw [if_neg]
  rw [herr]
  simp

/-- C2, the failing input: depth 5 of 5, no pre-existing error. -/
def c2state : ResearchState :=
  ⟨"q", "g", some scnGraph, none, [], [], 5, 5, none, 0, [], [], [], none⟩

/-- C2, witness: the depth-stop theorem applied at the failing input — the
stop signal fires yet the workflow routes to the selector. -/
theorem claim_C2_witness :
    (auditorStep 10 2 c2state).stop_reason = some "max_depth" ∧
      (auditorStep 10 2 c2state).error = none ∧
      routeAfterAudit (applyAuditorUpdates c2state (auditorStep 10 2 c2state)) =
        AuditRoute.toSelector :=
  claim_C2_depth_stop_not_routed 10 2 c2state (by decide) rfl

theorem checkDepth_not_critical (st : ResearchState) (i : AuditIssue)
    (h : checkDepth st = some i) : issueIsCritical i = false := by
  unfold checkDepth at h
  by_cases h1 : st.recursion_depth ≥ st.max_depth
  · rw [if_pos h1] at h
    injection h with h
    subst h
    rfl
  · rw [if_neg h1] at h
    by_cases h2 : st.recursion_depth ≥ st.max_depth - 1
    · rw [if_pos h2] at h
      injection h with h
      subst h
      rfl
    · rw [if_neg h2] at h
      simp at h

theorem checkLoops_not_critical (ma : Int) (st : ResearchState) (i : AuditIssue)
    (h : checkLoops ma st = some i) : issueIsCritical i = false := by
  unfold checkLoops at h
  by_cases h50 : st.action_hashes.length > 50
  · rw [if_pos h50] at h
    injection h with h
    subst h
    rfl
  · rw [if_neg h50] at h
    cases hm : firstMaxByVal st.action_hashes with
    | none =>
        rw [hm] at h
        simp at h
    | some w =>
        rw [hm] at h
        dsimp only at h
        by_cases hw : w.2 > ma
        · rw [if_pos hw] at h
          injection h with h
          subst h
          rfl
        · rw [if_neg hw] at h
          simp at h

theorem checkProgress_not_critical (st : ResearchState) (i : AuditIssue)
    (h : checkProgress st = some i) : issueIsCritical i = false := by
  unfold checkProgress at h
  cases hg : st.causal_graph with
  | none =>
      rw [hg] at h
      injection h with h
      subst h
      rfl
  | some g =>
      rw [hg] at h
      dsimp only at h
      by_cases h0 : g.edges.length = 0
      · rw [if_pos h0] at h
        injection h with h
        subst h
        rfl
      · rw [if_neg h0] at h
        by_cases h5 : st.total_edges_investigated > 5 ∧
            ((g.get_edges_by_status EdgeStatus.VERIFIED).length : Int) +
              ((g.get_edges_by_status EdgeStatus.FALSIFIED).length : Int) = 0
        · rw [if_pos h5] at h
          injection h with h
          subst h
          rfl
        · rw [if_neg h5] at h
          simp at h

theorem auditorIssues_error_of_critical (mv ma : Int) (st : ResearchState)
    (name : String) (c : Int)
    (hv : checkVisits mv st.node_visit_counts = some (AuditIssue.visitCritical name c)) :
    (auditorIssuesResult mv ma st).error ≠ none ∧
      AuditIssue.visitCritical name c ∈ (auditorIssuesResult mv ma st).audit_feedback := by
  unfold auditorIssuesResult
  rw [hv]
  simp only [Option.toList_some]
  have hmem : AuditIssue.visitCritical name c ∈
      (checkDepth st).toList ++ (checkLoops ma st).toList ++
        [AuditIssue.visitCritical name c] ++ (checkProgress st).toList := by
    simp
  rw [if_pos (List.ne_nil_of_mem hmem)]
  have hfmem : AuditIssue.visitCritical name c ∈
      ((checkDepth st).toList ++ (checkLoops ma st).toList ++
        [AuditIssue.visitCritical name c] ++ (checkProgress st).toList).filter
        issueIsCritical :=
    List.mem_filter.mpr ⟨hmem, rfl⟩
  constructor
  · dsimp only
    rw [if_pos (List.ne_nil_of_mem hfmem)]
    simp
  · exact hmem

theorem auditorIssues_error_none (mv ma : Int) (st : ResearchState)
    (hv : ∀ i, checkVisits mv st.node_visit_counts = some i → issueIsCritical i = false) :
    (auditorIssuesResult mv ma st).error = none := by
  unfold auditorIssuesResult
  dsimp only
  have hall : ∀ i ∈ (checkDepth st).toList ++ (checkLoops ma st).toList ++
      (checkVisits mv st.node_visit_counts).toList ++ (checkProgress st).toList,
      ¬issueIsCritical i = true := by
    intro i hi
    rcases List.mem_append.mp hi with hi | hi
    · rcases List.mem_append.mp hi with hi | hi
      · rcases List.mem_append.mp hi with hi | hi
        · rw [Option.mem_toList] at hi
          rw [checkDepth_not_critical st i hi]
          simp
        · rw [Option.mem_toList] at hi
          rw [checkLoops_not_critical ma st i hi]
          simp
      · rw [Option.mem_toList] at hi
        rw [hv i hi]
        simp
    · rw [Option.mem_toList] at hi
      rw [checkProgress_not_critical st i hi]
      simp
  by_cases hne : (checkDepth st).toList ++ (checkLoops ma st).toList ++
      (checkVisits mv st.node_visit_counts).toList ++ (checkProgress st).toList ≠ []
  · rw [if_pos hne]
    dsimp only
    rw [if_neg]
    intro hc
    exact hc (List.filter_eq_nil_iff.mpr hall)
  · rw [if_neg hne]

theorem checkVisits_first_trip (mv : Int) (name : String) (c : Int)
    (post : List (String × Int)) (hc : c ≥ mv) :
    ∀ pre, (∀ p ∈ pre, p.2 < mv - 2) →
      checkVisits mv (pre ++ (name, c) :: post) =
        some (AuditIssue.visitCritical name c) := by
  intro pre
  induction pre with
  | nil =>
      intro _
      rw [List.nil_append]
      unfold checkVisits
      rw [if_pos hc]
  | cons p t ih =>
      intro hall
      obtain ⟨pn, pc⟩ := p
      have hp : pc < mv - 2 := hall (pn, pc) (List.mem_cons_self _ _)
      rw [List.cons_append]
      unfold checkVisits
      rw [if_neg (by omega), if_neg (by omega)]
      exact ih (fun q hq => hall q (List.mem_cons_of_mem _ hq))

/-- C7, counterexample: visit counts `{"a": 8, "judge": 10}` with
`max_node_visits = 10` and depth 0 of 5 — the `"judge"` count reaches the
cap, yet the auditor's result has no `error`: `_check_visits` returns on
the first entry that trips a threshold, which is the mere warning for
`"a"`. -/
theorem claim_C7_counterexample :
    (("judge", (10 : Int)) ∈
      (⟨"q", "g", some scnGraph, none, [], [], 0, 5, none, 0,
        [("a", 8), ("judge", 10)], [], [], none⟩ : ResearchState).node_visit_counts ∧
      (10 : Int) ≥ 10) ∧
      (auditorStep 10 2
        ⟨"q", "g", some scnGraph, none, [], [], 0, 5, none, 0,
          [("a", 8), ("judge", 10)], [], [], none⟩).error = none := by
  refine ⟨⟨by decide, by decide⟩, ?_⟩
  decide

/-- C7, amended: for every state whose depth stop does not fire
(`recursion_depth < max_depth`): if the first entry of
`node_visit_counts` that reaches the warning threshold actually reaches
`max_node_visits` — in particular whenever some entry reaches
`max_node_visits` and every earlier entry is below
`max_node_visits - 2` — the auditor's result carries a terminal `error`
(and the critical feedback line); with a single tracked step at
`max_node_visits - 2` the result carries only a warning and no `error`. -/
theorem claim_C7_amended (mv ma : Int) (st : ResearchState) (name : String) (c : Int)
    (hd : st.recursion_depth < st.max_depth) :
    ((∀ post, c ≥ mv →
      (∀ pre, st.node_visit_counts = pre ++ (name, c) :: post →
        (∀ p ∈ pre, p.2 < mv - 2) →
        (auditorStep mv ma st).error ≠ none ∧
          AuditIssue.visitCritical name c ∈ (auditorStep mv ma st).audit_feedback)) ∧
      (st.node_visit_counts = [(name, mv - 2)] →
        (auditorStep mv ma st).error = none ∧
          AuditIssue.visitWarning name (mv - 2) ∈
            (auditorStep mv ma st).audit_feedback)) := by
  rw [auditorStep_of_lt mv ma st hd]
  constructor
  · intro post hc pre hsplit hall
    have hv : checkVisits mv st.node_visit_counts =
        some (AuditIssue.visitCritical name c) := by
      rw [hsplit]
      exact checkVisits_first_trip mv name c post hc pre hall
    exact auditorIssues_error_of_critical mv ma st name c hv
  · intro hsingle
    have hv : checkVisits mv st.node_visit_counts =
        some (AuditIssue.visitWarning name (mv - 2)) := by
      rw [hsingle]
      unfold checkVisits
      rw [if_neg (by omega), if_pos (by omega)]
    constructor
    · refine auditorIssues_error_none mv ma st ?_
      intro i hi
      rw [hv] at hi
      injection hi with hi
      subst hi
      rfl
    · unfold auditorIssuesResult
      rw [hv]
      simp only [Option.toList_some]
      have hmem : AuditIssue.visitWarning name (mv - 2) ∈
          (checkDepth st).toList ++ (checkLoops ma st).toList ++
            [AuditIssue.visitWarning name (mv - 2)] ++ (checkProgress st).toList := by
        simp
      rw [if_pos (List.ne_nil_of_mem hmem)]
      exact hmem

/-- C7, witness: the amended theorem applied at two concrete states —
visit count `judge = 10` of 10 sets a terminal error with the critical
line; `judge = 8` of 10 yields no error and the warning line. -/
theorem claim_C7_witness :
    ((auditorStep 10 2
        ⟨"q", "g", some scnGraph, none, [], [], 0, 5, none, 0,
          [("judge", 10)], [], [], none⟩).error ≠ none ∧
      AuditIssue.visitCritical "judge" 10 ∈
        (auditorStep 10 2
          ⟨"q", "g", some scnGraph, none, [], [], 0, 5, none, 0,
            [("judge", 10)], [], [], none⟩).audit_feedback) ∧
      ((auditorStep 10 2
          ⟨"q", "g", some scnGraph, none, [], [], 0, 5, none, 0,
            [("judge", 8)], [], [], none⟩).error = none ∧
        AuditIssue.visitWarning "judge" 8 ∈
          (auditorStep 10 2
            ⟨"q", "g", some scnGraph, none, [], [], 0, 5, none, 0,
              [("judge", 8)], [], [], none⟩).audit_feedback) := by
  constructor
  · exact (claim_C7_amended 10 2 _ "judge" 10 (by decide)).1 [] (by decide) []
      (by decide) (by decide)
  · have h := (claim_C7_amended 10 2
      (⟨"q", "g", some scnGraph, none, [], [], 0, 5, none, 0,
        [("judge", 8)], [], [], none⟩ : ResearchState) "judge" 10 (by decide)).2
      (by decide)
    simpa using h

/-! ## Dialectical judge (`src/agents/nodes/judge.py`)

The generation capability is a parameter: `some j` means
`generate_structured` returns the judgment `j`, `none` that it raises (the
`except` branch builds the UNCLEAR/0.3 fallback).  The second component of
the result counts the generation invocations made during the step. -/

/-- The judge's verdict literal. -/
inductive Verdict
  | VERIFIED
  | FALSIFIED
  | UNCLEAR
deriving DecidableEq, Repr

/-- Assigning a verdict literal to `CausalEdge.status`. -/
def Verdict.toEdgeStatus : Verdict → EdgeStatus
  | Verdict.VERIFIED => EdgeStatus.VERIFIED
  | Verdict.FALSIFIED => EdgeStatus.FALSIFIED
  | Verdict.UNCLEAR => EdgeStatus.UNCLEAR

/-- `JudgmentOutput`. -/
structure JudgmentOutput where
  verdict : Verdict
  confidence : Rat
  reasoning : String
  key_supporting_points : List String
  key_contradicting_points : List String
  methodological_concerns : List String
deriving DecidableEq, Repr

/-- `CausalEdge.add_evidence`: append to the list selected by
`supports_hypothesis` unless an entry with the same id or the same content
is already present. -/
def CausalEdge.add_evidence (e : CausalEdge) (ev : Evidence) : CausalEdge :=
  if ev.supports_hypothesis then
    if e.supporting_evidence.any (fun ex => ex.id == ev.id || ex.content == ev.content)
    then e
    else { e with supporting_evidence := e.supporting_evidence ++ [ev] }
  else
    if e.contradicting_evidence.any (fun ex => ex.id == ev.id || ex.content == ev.content)
    then e
    else { e with contradicting_evidence := e.contradicting_evidence ++ [ev] }

/-- One feedback line of the judge, one constructor per message template. -/
inductive JudgeFeedback
  | noEdge
  | verdictLine (source target : String) (verdict : Verdict) (confidence : Rat)
  | insufficient (source target : String)
deriving DecidableEq, Repr

/-- The updates dict returned by `DialecticalJudgeNode.__call__`; an
`Option` field is `none` when the key is absent; `clear_focus` records the
presence of `focus_edge: None` / `focus_edge_id: None` in the dict. -/
structure JudgeUpdates where
  causal_graph : Option CausalGraph := none
  clear_focus : Bool := false
  total_edges_investigated : Option Int := none
  audit_feedback : List JudgeFeedback := []
deriving DecidableEq, Repr

/-- `DialecticalJudgeNode._insufficient_evidence`: mark the focus edge
UNCLEAR with confidence 0.2 and the fixed reasoning string, increment its
investigation count, write it back, clear the focus and bump
`total_edges_investigated`. -/
def insufficientEvidence (edge : CausalEdge) (st : ResearchState) : JudgeUpdates :=
  let e' := { edge with
    status := EdgeStatus.UNCLEAR,
    confidence := (0.2 : Rat),
    judge_reasoning := "Insufficient evidence for definitive judgment",
    investigation_count := edge.investigation_count + 1 }
  let graph' := match st.causal_graph with
    | some g => some (g.update_edge e').1
    | none => none
  { causal_graph := graph',
    clear_focus := true,
    total_edges_investigated := some (st.total_edges_investigated + 1),
    audit_feedback := [JudgeFeedback.insufficient edge.source_id edge.target_id] }

/-- `DialecticalJudgeNode._update_edge`: merge the judgment into the edge
and append both evidence sets with the id-or-content dedup. -/
def judgeUpdateEdge (edge : CausalEdge) (j : JudgmentOutput)
    (supporting contradicting : List Evidence) : CausalEdge :=
  let e := { edge with
    status := j.verdict.toEdgeStatus,
    confidence := j.confidence,
    judge_reasoning := j.reasoning,
    investigation_count := edge.investigation_count + 1 }
  (supporting ++ contradicting).foldl CausalEdge.add_evidence e

/-- The fallback judgment built in `_adjudicate`'s `except` branch. -/
def adjudicateFallback : JudgmentOutput :=
  ⟨Verdict.UNCLEAR, (0.3 : Rat), "Judgment process encountered error", [],
    ["Unable to complete full analysis"], []⟩

/-- `DialecticalJudgeNode.__call__`: no focus edge → feedback only; too
little evidence → `_insufficient_evidence` without invoking generation;
otherwise one generation call (`none` = the call raised, replaced by the
UNCLEAR/0.3 fallback), merge the verdict, write the edge back, clear the
focus.  The `Nat` counts generation invocations. -/
def judgeStep (min_evidence_for_verdict : Int) (llm : Option JudgmentOutput)
    (st : ResearchState) : JudgeUpdates × Nat :=
  match st.focus_edge with
  | none => ({ audit_feedback := [JudgeFeedback.noEdge] }, 0)
  | some edge =>
      let supporting := st.supporting_evidence
      let contradicting := st.contradicting_evidence
      if ((supporting.length : Int) + (contradicting.length : Int)) <
          min_evidence_for_verdict then
        (insufficientEvidence edge st, 0)
      else
        let judgment := match llm with
          | some j => j
          | none => adjudicateFallback
        let e' := judgeUpdateEdge edge judgment supporting contradicting
        let graph' := match st.causal_graph with
          | some g => some (g.update_edge e').1
          | none => none
        ({ causal_graph := graph',
           clear_focus := true,
           total_edges_investigated := some (st.total_edges_investigated + 1),
           audit_feedback := [JudgeFeedback.verdictLine edge.source_id edge.target_id
             judgment.verdict judgment.confidence] }, 1)

/-- C6: whenever the evidence buffers hold fewer than
`min_evidence_for_verdict` items in total, the judge performs zero
generation invocations — its result does not depend on the generation
parameter at all — and instead writes the focus edge back as `UNCLEAR`
with confidence 0.2 and the "insufficient evidence" reasoning, still
incrementing the edge's `investigation_count` and the state's
`total_edges_investigated`. -/
theorem claim_C6_judge_floor (min_evidence : Int) (llm : Option JudgmentOutput)
    (st : ResearchState) (edge : CausalEdge) (g : CausalGraph)
    (hfocus : st.focus_edge = some edge)
    (hgraph : st.causal_graph = some g)
    (hfloor : (st.supporting_evidence.length : Int) +
      (st.contradicting_evidence.length : Int) < min_evidence) :
    judgeStep min_evidence llm st =
      ({ causal_graph := some (g.update_edge
            { edge with
              status := EdgeStatus.UNCLEAR,
              confidence := (0.2 : Rat),
              judge_reasoning := "Insufficient evidence for definitive judgment",
              investigation_count := edge.investigation_count + 1 }).1,
         clear_focus := true,
         total_edges_investigated := some (st.total_edges_investigated + 1),
         audit_feedback := [JudgeFeedback.insufficient edge.source_id edge.target_id] },
       0) := by
  unfold judgeStep
  rw [hfocus]
  dsimp only
  rw [if_pos hfloor]
  unfold insufficientEvidence
  rw [hgraph]

/-- C6, witness: the judge floor applied at a concrete state with both
evidence buffers empty and the default `min_evidence_for_verdict = 2`. -/
theorem claim_C6_witness :
    judgeStep 2 (some adjudicateFallback)
      ⟨"q", "g", some scnGraph, some scnEdgeAB, [], [], 0, 5, none, 0, [], [], [],
        none⟩ =
      ({ causal_graph := some (scnGraph.update_edge
            { scnEdgeAB with
              status := EdgeStatus.UNCLEAR,
              confidence := (0.2 : Rat),
              judge_reasoning := "Insufficient evidence for definitive judgment",
              investigation_count := scnEdgeAB.investigation_count + 1 }).1,
         clear_focus := true,
         total_edges_investigated := some 1,
         audit_feedback := [JudgeFeedback.insufficient scnEdgeAB.source_id
           scnEdgeAB.target_id] },
       0) :=
  claim_C6_judge_floor 2 (some adjudicateFallback) _ scnEdgeAB scnGraph rfl rfl
    (by decide)

/-! ## Resilient model invocation (`src/adapters/fallback_llm_adapter.py`)

One call to `_with_fallback` is embedded as a pure state machine.  The
behaviour of each provider during the call is a function
`f : Nat → Option PyError` (`none` = the call succeeds, `some e` = it
raises `e`); each index is attempted at most once per call, so a
per-index outcome is fully general.  `time.monotonic()` is a single
per-call instant `now` (time does not advance inside one call).  The
error taxonomy mirrors `_should_fallback` / `_retry_after_seconds`: the
body-phrase matching on 400/422 responses is abstracted to the Boolean
`modelNotFoundBody`, and an unparseable or non-numeric `Retry-After`
header is identified with an absent one (both make
`_retry_after_seconds` return `None`). -/

/-- An exception raised by a provider call, classified the way the
fallback adapter inspects it. -/
inductive PyError
  | adapterHTTP (status : Nat) (modelNotFoundBody : Bool) (retryAfterHeader : Option Rat)
  | adapterTransport
  | adapterJSONDecode
  | adapterOther
  | bareTransport
  | otherError
deriving DecidableEq, Repr

/-- `FallbackLLMAdapter._is_transient_http_status`. -/
def isTransientHttpStatus (status : Nat) : Bool :=
  [408, 425, 429, 500, 502, 503, 504, 529].contains status

/-- `FallbackLLMAdapter._looks_like_model_not_found`. -/
def looksLikeModelNotFound (status : Nat) (modelNotFoundBody : Bool) : Bool :=
  if [404, 410].contains status then true
  else if [400, 422].contains status then modelNotFoundBody
  else false

/-- `FallbackLLMAdapter._should_fallback`. -/
def shouldFallback : PyError → Bool
  | PyError.adapterHTTP status body _ =>
      isTransientHttpStatus status || looksLikeModelNotFound status body
  | PyError.adapterTransport => true
  | PyError.adapterJSONDecode => true
  | PyError.adapterOther => true
  | PyError.bareTransport => true
  | PyError.otherError => false

/-- `FallbackLLMAdapter._retry_after_seconds`: only a 429 with a parseable
positive `Retry-After` header yields a value. -/
def retryAfterSeconds : PyError → Option Rat
  | PyError.adapterHTTP status _ header =>
      if status ≠ 429 then none
      else
        match header with
        | none => none
        | some secs => if secs ≤ 0 then none else some secs
  | _ => none

/-- `self._cooldown_until_by_index.get(index)`. -/
def cdLookup (m : List (Nat × Rat)) (i : Nat) : Option Rat :=
  (m.find? (fun p => p.1 == i)).map (fun p => p.2)

/-- `self._cooldown_until_by_index.pop(index, None)`. -/
def cdErase (m : List (Nat × Rat)) (i : Nat) : List (Nat × Rat) :=
  m.filter (fun p => !(p.1 == i))

/-- `self._cooldown_until_by_index[index] = v`. -/
def cdSet (m : List (Nat × Rat)) (i : Nat) (v : Rat) : List (Nat × Rat) :=
  if m.any (fun p => p.1 == i) then
    m.map (fun p => if p.1 == i then (p.1, v) else p)
  else
    m ++ [(i, v)]

/-- `FallbackLLMAdapter._is_in_cooldown`: an expired entry is popped as a
side effect, so the (possibly updated) map is returned alongside. -/
def isInCooldown (now : Rat) (m : List (Nat × Rat)) (i : Nat) :
    Bool × List (Nat × Rat) :=
  match cdLookup m i with
  | none => (false, m)
  | some u => if now ≥ u then (false, cdErase m i) else (true, m)

/-- First loop of `_next_index`: the next untried index, preferring those
not in cooldown (cooldown checks pop expired entries). -/
def nextIndexGo (n : Nat) (now : Rat) (current : Nat) (tried : List Nat) :
    List Nat → List (Nat × Rat) → Option Nat × List (Nat × Rat)
  | [], m => (none, m)
  | off :: offs, m =>
      let idx := (current + off) % n
      if idx ∈ tried then nextIndexGo n now current tried offs m
      else
        let r := isInCooldown now m idx
        if r.1 then nextIndexGo n now current tried offs r.2
        else (some idx, r.2)

/-- Second loop of `_next_index`: any untried index, cooldown ignored. -/
def nextIndexSecond (n : Nat) (current : Nat) (tried : List Nat) :
    List Nat → Option Nat
  | [] => none
  | off :: offs =>
      let idx := (current + off) % n
      if idx ∈ tried then nextIndexSecond n current tried offs else some idx

/-- `FallbackLLMAdapter._next_index` over offsets `1 .. n`. -/
def nextIndex (n : Nat) (now : Rat) (current : Nat) (tried : List Nat)
    (m : List (Nat × Rat)) : Option Nat × List (Nat × Rat) :=
  match nextIndexGo n now current tried (List.range' 1 n) m with
  | (some idx, m') => (some idx, m')
  | (none, m') =>
      match nextIndexSecond n current tried (List.range' 1 n) with
      | some idx => (some idx, m')
      | none => (none, m')

/-- The cooldown bookkeeping of `_with_fallback` on a fallback-eligible
failure (lines 178–186): a positive `Retry-After` on a 429 cools the
provider until `now + seconds`; otherwise only an `AdapterError` wrapping
a transient-status `HTTPStatusError` cools it for the 15 s default;
transport, timeout, parse, and other failures set no cooldown. -/
def applyCooldown (e : PyError) (now : Rat) (idx : Nat) (m : List (Nat × Rat)) :
    List (Nat × Rat) :=
  match retryAfterSeconds e with
  | some s => cdSet m idx (now + s)
  | none =>
      match e with
      | PyError.adapterHTTP status _ _ =>
          if isTransientHttpStatus status then cdSet m idx (now + 15) else m
      | _ => m

/-- The adapter state: the sticky preferred index and the per-provider
cooldown map. -/
structure FallbackState where
  preferred : Nat
  cooldown : List (Nat × Rat)
deriving DecidableEq, Repr

/-- How one `_with_fallback` call ends: a successful provider index, or a
raise (`none` embeds the unreachable post-loop `RuntimeError`). -/
inductive CallOutcome
  | ok (idx : Nat)
  | raised (e : Option PyError)
deriving DecidableEq, Repr

/-- The observable result of one `_with_fallback` call: the indices
attempted in order, how the call ended, and the adapter state after it. -/
structure CallResult where
  attempts : List Nat
  outcome : CallOutcome
  final : FallbackState
deriving DecidableEq, Repr

/-- The `for _ in range(len(self._adapters))` loop of `_with_fallback`.
On success the attempted index becomes the preferred index; on a
fallback-eligible failure with untried providers left, the cooldown is
recorded, and the loop advances — making the *next* index the preferred
one ("Sticky: future calls start from the last attempted index"); any
other failure re-raises with no cooldown recorded. -/
def fallbackLoop (n : Nat) (f : Nat → Option PyError) (now : Rat) :
    Nat → List Nat → Nat → Option PyError → FallbackState → List Nat → CallResult
  | 0, _, _, lastError, st, attempts =>
      ⟨attempts.reverse, CallOutcome.raised lastError, st⟩
  | fuel + 1, tried, idx, _, st, attempts =>
      let tried' := if idx ∈ tried then tried else idx :: tried
      let attempts' := idx :: attempts
      match f idx with
      | none => ⟨attempts'.reverse, CallOutcome.ok idx, { st with preferred := idx }⟩
      | some e =>
          if shouldFallback e ∧ tried'.length < n then
            let cooldown' := applyCooldown e now idx st.cooldown
            let r := nextIndex n now idx tried' cooldown'
            match r.1 with
            | none =>
                ⟨attempts'.reverse, CallOutcome.raised (some e),
                  { st with cooldown := r.2 }⟩
            | some nidx =>
                fallbackLoop n f now fuel tried' nidx (some e)
                  ⟨nidx, r.2⟩ attempts'
          else
            ⟨attempts'.reverse, CallOutcome.raised (some e), st⟩

/-- `FallbackLLMAdapter._with_fallback`: start from the preferred index,
side-stepping it when it is cooling down, then run the loop. -/
def withFallback (n : Nat) (f : Nat → Option PyError) (now : Rat)
    (st : FallbackState) : CallResult :=
  let r0 := isInCooldown now st.cooldown st.preferred
  let st1 : FallbackState := { st with cooldown := r0.2 }
  if r0.1 then
    let r1 := nextIndex n now st.preferred [] st1.cooldown
    let st2 : FallbackState := { st1 with cooldown := r1.2 }
    match r1.1 with
    | some j => fallbackLoop n f now n [] j none st2 []
    | none => fallbackLoop n f now n [] st.preferred none st2 []
  else
    fallbackLoop n f now n [] st.preferred none st1 []

theorem fallbackLoop_ok_preferred (n : Nat) (f : Nat → Option PyError) (now : Rat) :
    ∀ (fuel : Nat) (tried : List Nat) (idx : Nat) (le : Option PyError)
      (st : FallbackState) (attempts : List Nat) (i : Nat),
      (fallbackLoop n f now fuel tried idx le st attempts).outcome = CallOutcome.ok i →
      (fallbackLoop n f now fuel tried idx le st attempts).final.preferred = i := by
  intro fuel
  induction fuel with
  | zero =>
      intro tried idx le st attempts i h
      simp [fallbackLoop] at h
  | succ fuel ih =>
      intro tried idx le st attempts i h
      rw [fallbackLoop] at h ⊢
      cases hf : f idx with
      | none =>
          rw [hf] at h
          dsimp only at h ⊢
          exact CallOutcome.ok.inj h
      | some e =>
          rw [hf] at h
          dsimp only at h ⊢
          by_cases hcond : shouldFallback e ∧
              (if idx ∈ tried then tried else idx :: tried).length < n
          · rw [if_pos hcond] at h ⊢
            split at h
            · simp at h
            · exact ih _ _ _ _ _ _ h
          · rw [if_neg hcond] at h ⊢
            simp at h

theorem withFallback_ok_preferred (n : Nat) (f : Nat → Option PyError) (now : Rat)
    (st : FallbackState) (i : Nat)
    (h : (withFallback n f now st).outcome = CallOutcome.ok i) :
    (withFallback n f now st).final.preferred = i := by
  unfold withFallback at h ⊢
  dsimp only at h ⊢
  by_cases hc : (isInCooldown now st.cooldown st.preferred).1 = true
  · rw [if_pos hc] at h ⊢
    cases hn : (nextIndex n now st.preferred []
        (isInCooldown now st.cooldown st.preferred).2).1 with
    | some j =>
        rw [hn] at h
        dsimp only at h ⊢
        exact fallbackLoop_ok_preferred n f now _ _ _ _ _ _ _ h
    | none =>
        rw [hn] at h
        dsimp only at h ⊢
        exact fallbackLoop_ok_preferred n f now _ _ _ _ _ _ _ h
  · rw [if_neg hc] at h ⊢
    exact fallbackLoop_ok_preferred n f now _ _ _ _ _ _ _ h

theorem cdLookup_nil (i : Nat) : cdLookup [] i = none := rfl

theorem cdLookup_cons (q : Nat × Rat) (t : List (Nat × Rat)) (i : Nat) :
    cdLookup (q :: t) i = if (q.1 == i) = true then some q.2 else cdLookup t i := by
  unfold cdLookup
  rw [List.find?_cons]
  by_cases h : (q.1 == i) = true
  · simp [h]
  · simp [h]

theorem cdLookup_cdSet_same (m : List (Nat × Rat)) (i : Nat) (v : Rat) :
    cdLookup (cdSet m i v) i = some v := by
  unfold cdSet
  by_cases h : m.any (fun p => p.1 == i)
  · rw [if_pos h]
    induction m with
    | nil => simp at h
    | cons q t ih =>
        rw [List.map_cons]
        by_cases hq : (q.1 == i) = true
        · rw [if_pos hq, cdLookup_cons]
          simp [hq]
        · rw [if_neg hq, cdLookup_cons, if_neg hq]
          refine ih ?_
          rw [List.any_cons] at h
          simpa [hq] using h
  · rw [if_neg h]
    have hnone : ∀ p ∈ m, (p.1 == i) = false := by
      intro p hp
      by_contra hc
      rw [Bool.not_eq_false] at hc
      exact h (List.any_eq_true.mpr ⟨p, hp, hc⟩)
    induction m with
    | nil =>
        rw [List.nil_append, cdLookup_cons]
        simp
    | cons q t ih =>
        rw [List.cons_append, cdLookup_cons,
          if_neg (by simp [hnone q (List.mem_cons_self q t)])]
        exact ih (fun hany => h (by rw [List.any_cons]; simp [hany]))
          (fun p hp => hnone p (List.mem_cons_of_mem q hp))

/-- C3, counterexample: two providers that both fail with HTTP 500 —
no provider call succeeds during the call, yet the sticky preferred index
changes from 0 to 1 (it is reassigned on the failure-driven advance,
`self._preferred_index = idx` after `_next_index`). -/
theorem claim_C3_counterexample :
    (withFallback 2 (fun _ => some (PyError.adapterHTTP 500 false none)) 0
        ⟨0, []⟩).outcome =
      CallOutcome.raised (some (PyError.adapterHTTP 500 false none)) ∧
      (withFallback 2 (fun _ => some (PyError.adapterHTTP 500 false none)) 0
          ⟨0, []⟩).final.preferred = 1 := by
  constructor
  · rfl
  · rfl

/-- The spec's fallback scenario: provider 0 fails with HTTP 429 and
`Retry-After: 5`, every other provider succeeds. -/
def scnOutcome429 : Nat → Option PyError :=
  fun i => if i = 0 then some (PyError.adapterHTTP 429 false (some 5)) else none

/-- Provider 0 fails with HTTP 503 (transient, no `Retry-After`), every
other provider succeeds. -/
def scnOutcome503 : Nat → Option PyError :=
  fun i => if i = 0 then some (PyError.adapterHTTP 503 false none) else none

/-- Provider 0 fails with a transport/timeout error, every other provider
succeeds. -/
def scnOutcomeTransport : Nat → Option PyError :=
  fun i => if i = 0 then some PyError.adapterTransport else none

/-- Providers 1 and 2 fail with HTTP 503, provider 0 succeeds. -/
def scnOutcomeBack : Nat → Option PyError :=
  fun i => if i = 0 then none else some (PyError.adapterHTTP 503 false none)

/-- C3, amended: the sticky preferred index is set to the successful
provider's index on success, but it is *also* reassigned during fallback
to the next index to try, even when no call succeeds (counterexample).
In the spec's 3-provider scenario — provider 0 fails with 429 and
`Retry-After: 5` at time `t₀`, provider 1 succeeds — the call attempts
`[0, 1]`, cools provider 0 until `t₀ + 5`, and leaves provider 1
preferred; every later call whose provider 1 succeeds (at any time,
before or after the cooldown expires) starts at provider 1 and leaves it
preferred; preference returns to provider 0 only through a call that
actually attempts provider 0 — e.g. when provider 1 starts failing after
the cooldown has expired and provider 0 succeeds. -/
theorem claim_C3_amended :
    (∀ (n : Nat) (f : Nat → Option PyError) (now : Rat) (st : FallbackState) (i : Nat),
      (withFallback n f now st).outcome = CallOutcome.ok i →
      (withFallback n f now st).final.preferred = i) ∧
      (∀ t0 : Rat, withFallback 3 scnOutcome429 t0 ⟨0, []⟩ =
        ⟨[0, 1], CallOutcome.ok 1, ⟨1, [(0, t0 + 5)]⟩⟩) ∧
      (∀ t c : Rat, withFallback 3 scnOutcome429 t ⟨1, [(0, c)]⟩ =
        ⟨[1], CallOutcome.ok 1, ⟨1, [(0, c)]⟩⟩) ∧
      (withFallback 3 scnOutcomeBack 7 ⟨1, [(0, 5)]⟩ =
        ⟨[1, 2, 0], CallOutcome.ok 0, ⟨0, [(1, 7 + 15), (2, 7 + 15)]⟩⟩) := by
  refine ⟨withFallback_ok_preferred, ?_, ?_, ?_⟩
  · intro t0
    rfl
  · intro t c
    rfl
  · rfl

/-- C3, witness: the amended theorem applied at concrete inputs — the
success-stickiness conjunct at the 429 scenario's first call (time 0),
and the subsequent-call conjunct at time 3 (within the 5 s cooldown). -/
theorem claim_C3_witness :
    (withFallback 3 scnOutcome429 0 ⟨0, []⟩).final.preferred = 1 ∧
      withFallback 3 scnOutcome429 3 ⟨1, [(0, 5)]⟩ =
        ⟨[1], CallOutcome.ok 1, ⟨1, [(0, 5)]⟩⟩ :=
  ⟨claim_C3_amended.1 3 scnOutcome429 0 ⟨0, []⟩ 1 (by rfl),
   claim_C3_amended.2.2.1 3 5⟩

/-- C4, counterexample: a single provider failing with HTTP 429 and
`Retry-After: 5` — the failure carries the header, but since no untried
provider remains the adapter re-raises without recording any cooldown:
the cooldown map stays empty. -/
theorem claim_C4_counterexample :
    (withFallback 1 (fun _ => some (PyError.adapterHTTP 429 false (some 5))) 0
        ⟨0, []⟩).outcome =
      CallOutcome.raised (some (PyError.adapterHTTP 429 false (some 5))) ∧
      (withFallback 1 (fun _ => some (PyError.adapterHTTP 429 false (some 5))) 0
          ⟨0, []⟩).final.cooldown = [] := by
  constructor
  · rfl
  · rfl

/-- C4, amended: cooldowns are recorded only when the adapter actually
proceeds to another provider (fallback-eligible failure with untried
providers left).  On such a failure: a 429 whose `Retry-After` parses to
a positive number cools the provider until `now + seconds`; any other
`AdapterError`-wrapped HTTP response with a transient status
(408/425/429/500/502/503/504/529) cools it for the fixed 15 s default;
transport, timeout, and response-parsing failures trigger fallback but
record **no** cooldown. -/
theorem claim_C4_amended :
    (∀ (body : Bool) (ra now : Rat) (idx : Nat) (m : List (Nat × Rat)), 0 < ra →
      cdLookup (applyCooldown (PyError.adapterHTTP 429 body (some ra)) now idx m)
        idx = some (now + ra)) ∧
      (∀ (status : Nat) (body : Bool) (hdr : Option Rat) (now : Rat) (idx : Nat)
        (m : List (Nat × Rat)),
        isTransientHttpStatus status = true →
        retryAfterSeconds (PyError.adapterHTTP status body hdr) = none →
        cdLookup (applyCooldown (PyError.adapterHTTP status body hdr) now idx m)
          idx = some (now + 15)) ∧
      (∀ (now : Rat) (idx : Nat) (m : List (Nat × Rat)),
        applyCooldown PyError.adapterTransport now idx m = m ∧
          applyCooldown PyError.adapterJSONDecode now idx m = m ∧
          applyCooldown PyError.bareTransport now idx m = m ∧
          applyCooldown PyError.adapterOther now idx m = m) ∧
      (∀ t0 : Rat,
        (withFallback 2 scnOutcome429 t0 ⟨0, []⟩).final.cooldown = [(0, t0 + 5)] ∧
          (withFallback 2 scnOutcome503 t0 ⟨0, []⟩).final.cooldown = [(0, t0 + 15)] ∧
          (withFallback 2 scnOutcomeTransport t0 ⟨0, []⟩).final.cooldown = []) := by
  refine ⟨?_, ?_, ?_, ?_⟩
  · intro body ra now idx m hra
    have hras : retryAfterSeconds (PyError.adapterHTTP 429 body (some ra)) = some ra := by
      show (if (429 : Nat) ≠ 429 then none
        else if ra ≤ 0 then (none : Option Rat) else some ra) = some ra
      rw [if_neg (by simp), if_neg (not_le.mpr hra)]
    unfold applyCooldown
    rw [hras]
    exact cdLookup_cdSet_same m idx (now + ra)
  · intro status body hdr now idx m htrans hnone
    unfold applyCooldown
    rw [hnone]
    dsimp only
    rw [if_pos htrans]
    exact cdLookup_cdSet_same m idx (now + 15)
  · intro now idx m
    exact ⟨rfl, rfl, rfl, rfl⟩
  · intro t0
    exact ⟨rfl, rfl, rfl⟩

/-- C4, witness: the amended theorem applied at concrete inputs — a 429
with `Retry-After: 5` at time 0 on provider 2 cools it until 5, and a
503 (transient, no header) cools it until 15. -/
theorem claim_C4_witness :
    cdLookup (applyCooldown (PyError.adapterHTTP 429 false (some 5)) 0 2 []) 2 =
      some ((0 : Rat) + 5) ∧
      cdLookup (applyCooldown (PyError.adapterHTTP 503 false none) 0 2 []) 2 =
        some ((0 : Rat) + 15) :=
  ⟨claim_C4_amended.1 false 5 0 2 [] (by norm_num),
   claim_C4_amended.2.1 503 false none 0 2 [] (by decide) (by rfl)⟩
